import Mathlib

/-!
# goop: object fetch worker and clone driver

A shallow embedding of `internal/workers/findobjects.go` and of the parts of
`pkg/goop/clone.go` that decide the stated properties of the fetch pipeline.

Conventions of the embedding.

* A Go `string` or `[]byte` is a list of `Char` (`GoString`).  In the object
  worker a `Char` stands for one byte of the string (Go slices a string by
  bytes); in the line filter of `.gitignore` it stands for one character (Go
  trims Unicode white space).  On ASCII text, which is what object hashes, URL
  suffixes and the `.gitignore` syntax are, the two readings agree.
* A Go `error` value is an `Option`: `none` is `nil`.
* A run-time panic (slice or index out of range) is the result `none` of the
  function in which it happens.
* The local directory is a map from paths to file contents (`FS`).  Operating
  system calls that can fail take their verdict from the environment; a call
  that fails leaves the files as they were.
* The HTTP server is a function of the requests made so far and of the URL
  requested, so that it may answer the same URL differently over time.
* The workers are embedded sequentially: one job is taken and processed at a
  time.  The check-and-insert on `checkedObjs` is the only step the source
  protects by a mutex, and it is a single step here.
-/

namespace Goop

/-- A Go string or byte slice. -/
abbrev GoString := List Char

/-- The files of the local directory: path to content. -/
abbrev FS := GoString → Option GoString

/-- Go `utils.Exists(path)`: the path is present locally. -/
def pathExists (fs : FS) (path : GoString) : Bool := (fs path).isSome

/-- The effect of a successful `ioutil.WriteFile(path, body, perm)`. -/
def writeFile (fs : FS) (path body : GoString) : FS :=
  fun q => if q = path then some body else fs q

/-- The triple returned by `c.Get(nil, uri)`: status code, body and error. -/
structure Response where
  code : Int
  body : GoString
  err : Option GoString

/-- Modelled from the spec: the decoded repository object of the go-git library,
"a sealed variant: commit | tree | tag | blob", with the hashes (in their
string form) that each variant carries. -/
inductive GitObject where
  | commit (tree : GoString) (parents : List GoString)
  | tree (entries : List GoString)
  | tag (target : GoString)
  | blob
deriving DecidableEq

/-- Modelled from the spec: `utils.GetReferencedHashes` is not among the sources;
the spec gives "commit→tree+parents, tree→entries, tag→target" and "only the
first three yield outgoing hashes". -/
def GetReferencedHashes : GitObject → List GoString
  | GitObject.commit t ps => t :: ps
  | GitObject.tree es => es
  | GitObject.tag t => [t]
  | GitObject.blob => []

/-- What `storage.EncodedObject` returns: the stored object before decoding. -/
abbrev RawObject := GoString

/-- The collaborators of the object worker that are not among the sources: the
helpers of `internal/utils`, the HTTP client and server, the operating system
and the go-git object storage.  All are arbitrary. -/
structure Env where
  /-- Go `utils.Url(base, path)`. -/
  Url : GoString → GoString → GoString
  /-- Go `c.Get(nil, uri)`, given the URIs requested before this one. -/
  Get : List GoString → GoString → Response
  /-- Go `utils.IsHtml(body)`. -/
  IsHtml : GoString → Bool
  /-- Go `utils.IsEmptyBytes(body)`. -/
  IsEmptyBytes : GoString → Bool
  /-- The error of `utils.CreateParentFolders(path)`, if any. -/
  CreateParentFolders : FS → GoString → Option GoString
  /-- The error of `ioutil.WriteFile(path, body, os.ModePerm)`, if any. -/
  WriteFile : FS → GoString → GoString → Option GoString
  /-- Go `storage.EncodedObject(plumbing.AnyObject, plumbing.NewHash(obj))`;
  `none` is an error. -/
  EncodedObject : FS → GoString → Option RawObject
  /-- Go `object.DecodeObject(storage, encObj)`; `none` is an error. -/
  DecodeObject : FS → RawObject → Option GitObject

/-- Modelled from the spec: the job tracker of `internal/jobtracker`, "a FIFO
queue of pending jobs" and "a counter of workers currently executing a job".
The queue capacity ("large enough that blocking is exceptional") is not
represented. -/
structure JobTracker where
  Queue : List GoString
  activeWorkers : Nat

/-- Modelled from the spec: "`AddJob(s)`: append s to the queue." -/
def JobTracker.AddJob (jt : JobTracker) (job : GoString) : JobTracker :=
  { jt with Queue := jt.Queue ++ [job] }

/-- Modelled from the spec: `StartWork()` of "`StartWork()` / `EndWork()`: bracket
each job execution, maintaining the active counter." -/
def JobTracker.StartWork (jt : JobTracker) : JobTracker :=
  { jt with activeWorkers := jt.activeWorkers + 1 }

/-- Modelled from the spec: `EndWork()`, the closing bracket of `StartWork()`. -/
def JobTracker.EndWork (jt : JobTracker) : JobTracker :=
  { jt with activeWorkers := jt.activeWorkers - 1 }

/-- Modelled from the spec: "`HasWork()`: true iff queue non-empty OR active
counter > 0." -/
def JobTracker.HasWork (jt : JobTracker) : Bool :=
  !jt.Queue.isEmpty || decide (0 < jt.activeWorkers)

/-- Everything the object workers read and change.

* `checkedObjs`: the keys of the package variable `checkedObjs` (a
  `map[string]bool` in which only `true` is ever stored);
* `ratelimited`, `sleeps`: the rate-limit flag and the number of rate-limit
  sleeps taken so far;
* `jt`: the job tracker of the phase;
* `fs`: the files under the local directory;
* `trace`: the URIs of the HTTP GETs issued so far, oldest first. -/
structure State where
  checkedObjs : List GoString
  ratelimited : Bool
  sleeps : Nat
  jt : JobTracker
  fs : FS
  trace : List GoString

/-- Modelled from the spec: "`checkRatelimited()` is called at the start of each
work unit. If the flag is set, the worker sleeps for a fixed interval, then
clears the flag." -/
def checkRatelimted (s : State) : State :=
  if s.ratelimited then { s with sleeps := s.sleeps + 1, ratelimited := false } else s

/-- Modelled from the spec: "`setRatelimited()` sets the flag." -/
def setRatelimited (s : State) : State := { s with ratelimited := true }

/-- Go `jt.StartWork()` on the tracker of the state. -/
def State.StartWork (s : State) : State := { s with jt := s.jt.StartWork }

/-- Go `jt.EndWork()` on the tracker of the state. -/
def State.EndWork (s : State) : State := { s with jt := s.jt.EndWork }

/-- Go `checkedObjs[obj] = true`. -/
def State.markChecked (s : State) (obj : GoString) : State :=
  { s with checkedObjs := obj :: s.checkedObjs }

/-- The request `c.Get(nil, uri)` has been issued. -/
def State.recordGet (s : State) (uri : GoString) : State :=
  { s with trace := s.trace ++ [uri] }

/-- A successful `ioutil.WriteFile(path, body, os.ModePerm)`. -/
def State.storeFile (s : State) (path body : GoString) : State :=
  { s with fs := writeFile s.fs path body }

/-- Go `jt.AddJob(job)` on the tracker of the state. -/
def State.AddJob (s : State) (job : GoString) : State := { s with jt := s.jt.AddJob job }

/-- Go `for _, h := range referencedHashes { jt.AddJob(h) }`. -/
def State.AddJobs (s : State) (jobs : List GoString) : State := jobs.foldl State.AddJob s

/-- Go `fmt.Sprintf(".git/objects/%s/%s", obj[:2], obj[2:])`, for an `obj` of at
least two bytes (the slice expressions panic on a shorter one). -/
def objectFile (obj : GoString) : GoString :=
  ".git/objects/".toList ++ obj.take 2 ++ "/".toList ++ obj.drop 2

/-- Lines 59-73 and again 110-123 of `findobjects.go`: read the object from the
storage, decode it and enqueue the hashes it references; on either error, log
and return. -/
def enqueueReferenced (env : Env) (obj : GoString) (s : State) : State :=
  match env.EncodedObject s.fs obj with
  | none => s
  | some encObj =>
    match env.DecodeObject s.fs encObj with
    | none => s
    | some decObj => s.AddJobs (GetReferencedHashes decObj)

/-- Lines 91-123 of `findobjects.go`: what `findObjWork` does with the body of
a response that came without error and with status 200. -/
def storeObject (env : Env) (obj fullPath body : GoString) (s : State) : State :=
  if env.IsHtml body then s
  else if env.IsEmptyBytes body then s
  else if env.CreateParentFolders s.fs fullPath ≠ none then s
  else if env.WriteFile s.fs fullPath body ≠ none then s
  else enqueueReferenced env obj (s.storeFile fullPath body)

/-- Lines 77-123 of `findobjects.go`: the GET of the loose object and what
follows it. -/
def fetchObject (env : Env) (obj fullPath uri : GoString) (s : State) : State :=
  let r := env.Get s.trace uri
  let s1 := s.recordGet uri
  if r.err = none ∧ r.code ≠ 200 then
    if r.code = 429 then (setRatelimited s1).AddJob obj
    else s1
  else if r.err ≠ none then s1
  else storeObject env obj fullPath r.body s1

/-- The body of `findObjWork` between `jt.StartWork()` and the deferred
`jt.EndWork()`. -/
def findObjBody (env : Env) (baseUrl baseDir obj : GoString) (s0 : State) : Option State :=
  let s := checkRatelimted s0
  if obj = [] then some s
  else if obj ∈ s.checkedObjs then some s
  else
    let s1 := s.markChecked obj
    if obj.length < 2 then none
    else
      let file := objectFile obj
      let fullPath := env.Url baseDir file
      if pathExists s1.fs fullPath then some (enqueueReferenced env obj s1)
      else some (fetchObject env obj fullPath (env.Url baseUrl file) s1)

/-- Go `findObjWork(c, baseUrl, baseDir, obj, jt, storage)`; `none` is a panic. -/
def findObjWork (env : Env) (baseUrl baseDir obj : GoString) (s : State) : Option State :=
  (findObjBody env baseUrl baseDir obj s.StartWork).map State.EndWork

/-- Go `obj := <-jt.Queue`: the state once the first job has been received. -/
def State.receive (s : State) (rest : List GoString) : State :=
  { s with jt := { s.jt with Queue := rest } }

/-- The ways a run of the worker loop can stand after a number of iterations. -/
inductive WalkResult where
  /-- the worker returned: the queue is empty and no work is outstanding -/
  | finished (s : State)
  /-- a job panicked -/
  | panicked
  /-- the worker is still looping -/
  | running (s : State)

/-- Go `FindObjectsWorker`, one worker, for at most the given number of
iterations of its `for` loop. -/
def FindObjectsWorker (env : Env) (baseUrl baseDir : GoString) : Nat → State → WalkResult
  | 0, s => WalkResult.running s
  | n + 1, s =>
    match s.jt.Queue with
    | obj :: rest =>
      match findObjWork env baseUrl baseDir obj (s.receive rest) with
      | some s1 => FindObjectsWorker env baseUrl baseDir n s1
      | none => WalkResult.panicked
    | [] =>
      if s.jt.HasWork then FindObjectsWorker env baseUrl baseDir n s
      else WalkResult.finished s

/-- A sequence of jobs handed to `findObjWork` one after the other; a panic
ends the run in the state reached before the panicking job. -/
def processJobs (env : Env) (baseUrl baseDir : GoString) : List GoString → State → State
  | [], s => s
  | obj :: rest, s =>
    match findObjWork env baseUrl baseDir obj s with
    | some s1 => processJobs env baseUrl baseDir rest s1
    | none => s

/-! ## `pkg/goop/clone.go`: string helpers of the Go standard library -/

/-- Go `strings.HasSuffix(s, suffix)`. -/
def hasSuffix (s suffix : GoString) : Bool := decide (suffix <:+ s)

/-- Go `strings.TrimSuffix(s, suffix)`: `s` without the trailing `suffix`, or
`s` itself when it does not end so. -/
def trimSuffix (s suffix : GoString) : GoString :=
  if hasSuffix s suffix then s.take (s.length - suffix.length) else s

/-- Go `strings.HasPrefix(s, prefix)`. -/
def hasPrefix (s pre : GoString) : Bool := decide (pre <+: s)

/-- Go `strings.TrimPrefix(s, prefix)`. -/
def trimPrefix (s pre : GoString) : GoString :=
  if hasPrefix s pre then s.drop pre.length else s

/-- Go `unicode.IsSpace(r)`. -/
def isSpace (c : Char) : Bool :=
  let n := c.toNat
  (9 ≤ n && n ≤ 13) || n = 32 || n = 133 || n = 160 || n = 5760 ||
    (8192 ≤ n && n ≤ 8202) || n = 8232 || n = 8233 || n = 8239 || n = 8287 || n = 12288

/-- Go `strings.TrimSpace(s)`: leading and trailing white space removed. -/
def trimSpace (s : GoString) : GoString :=
  ((s.dropWhile isSpace).reverse.dropWhile isSpace).reverse

/-- Go `strings.Index(s, sep)`: the position of the first instance of `sep`. -/
def index : GoString → GoString → Option Nat
  | [], sep => if sep = [] then some 0 else none
  | c :: s, sep =>
    if sep <+: c :: s then some 0
    else (index s sep).map fun m => m + 1

/-- Go `strings.Count(s, sep)` for a non-empty `sep`: the number of
non-overlapping instances, counted in at most `fuel` rounds. -/
def count (sep : GoString) : Nat → GoString → Nat
  | 0, _ => 0
  | fuel + 1, s =>
    match index s sep with
    | none => 0
    | some m => count sep fuel (s.drop (m + sep.length)) + 1

/-- The loop of Go `genSplit`: at most `n` cuts at `sep`, then the rest. -/
def splitLoop (sep : GoString) : Nat → GoString → List GoString
  | 0, s => [s]
  | n + 1, s =>
    match index s sep with
    | none => [s]
    | some m => s.take m :: splitLoop sep n (s.drop (m + sep.length))

/-- Go `explode(s, n)`: the characters of `s` one by one, at most `n` pieces. -/
def explode (s : GoString) (n : Int) : List GoString :=
  let k : Nat := if n < 0 ∨ (s.length : Int) < n then s.length else n.toNat
  if k = 0 then []
  else (s.take (k - 1)).map (fun c => [c]) ++ [s.drop (k - 1)]

/-- Go `strings.SplitN(s, sep, n)`: `nil` for `n == 0`, all substrings for
`n < 0`, and for `n > 0` at most `n` substrings, the last one being the
unsplit remainder. -/
def SplitN (s sep : GoString) (n : Int) : List GoString :=
  if n = 0 then []
  else if sep = [] then explode s n
  else
    let k : Nat := if n < 0 then count sep (s.length + 1) s + 1 else n.toNat
    splitLoop sep (min k (s.length + 1) - 1) s

/-! ## `Clone` -/

/-- Lines 102-104 of `clone.go`: the three `strings.TrimSuffix` calls that
`Clone` applies to its URL argument before parsing it. -/
def stripSuffixes (u : GoString) : GoString :=
  trimSuffix (trimSuffix (trimSuffix u "/".toList) "/HEAD".toList) "/.git".toList

/-- The errors `Clone` returns. -/
inductive CloneError where
  /-- an error of `url.Parse` -/
  | parse (e : GoString)
  /-- Go `fmt.Errorf("%s is not a directory", baseDir)` -/
  | notADirectory (baseDir : GoString)
  /-- the error of `utils.IsEmpty(baseDir)` -/
  | isEmpty (e : GoString)
  /-- the error of `os.RemoveAll(baseDir)` -/
  | removeAll (e : GoString)
  /-- Go `fmt.Errorf("%s is not empty", baseDir)` -/
  | notEmpty (baseDir : GoString)
  /-- the error `FetchGit` returned -/
  | fetchGit (e : GoString)
deriving DecidableEq

/-- What the target-directory check of `Clone` does: whether it called
`os.RemoveAll(baseDir)`, and the error it makes `Clone` return, if any. -/
structure TargetCheck where
  removed : Bool
  err : Option CloneError
deriving DecidableEq

/-- Lines 122-139 of `clone.go`, the target-directory check of `Clone`, over
the answers of the operating system: `utils.Exists(baseDir)`,
`utils.IsFolder(baseDir)`, `utils.IsEmpty(baseDir)` (a verdict or an error) and
the error of `os.RemoveAll(baseDir)`, if any. -/
def checkTarget (baseDir : GoString) (targetExists isFolder : Bool)
    (isEmpty : Except GoString Bool) (removeAll : Option GoString)
    (force keep : Bool) : TargetCheck :=
  if targetExists then
    if !isFolder then ⟨false, some (CloneError.notADirectory baseDir)⟩
    else
      match isEmpty with
      | Except.error e => ⟨false, some (CloneError.isEmpty e)⟩
      | Except.ok empty =>
        if !empty then
          if force then
            match removeAll with
            | some e => ⟨true, some (CloneError.removeAll e)⟩
            | none => ⟨true, none⟩
          else if !keep then ⟨false, some (CloneError.notEmpty baseDir)⟩
          else ⟨false, none⟩
        else ⟨false, none⟩
  else ⟨false, none⟩

/-- Go `*url.URL`, as far as `Clone` reads and writes it. -/
structure URL where
  Scheme : GoString
  Host : GoString
  /-- the other fields -/
  Rest : GoString

/-- The collaborators of `Clone`. -/
structure CloneEnv where
  /-- Go `url.Parse(rawurl)` -/
  Parse : GoString → Except GoString URL
  /-- Go `parsed.String()` -/
  UrlString : URL → GoString
  /-- Go `utils.Exists(path)` -/
  Exists : GoString → Bool
  /-- Go `utils.IsFolder(path)` -/
  IsFolder : GoString → Bool
  /-- Go `utils.IsEmpty(path)` -/
  IsEmpty : GoString → Except GoString Bool
  /-- the error of `os.RemoveAll(path)`, if any -/
  RemoveAll : GoString → Option GoString
  /-- the error of `FetchGit(baseUrl, baseDir)`, if any, given whether the
  target has been removed before -/
  FetchGit : Bool → GoString → GoString → Option GoString

/-- What a call of `Clone` did: whether it removed the target, the arguments
with which it called `FetchGit` (if it came that far) and the error returned. -/
structure CloneOutcome where
  removed : Bool
  fetched : Option (GoString × GoString)
  err : Option CloneError

/-- Go `Clone(u, dir, force, keep)`. -/
def Clone (os : CloneEnv) (u dir : GoString) (force keep : Bool) : CloneOutcome :=
  let baseUrl := stripSuffixes u
  match os.Parse baseUrl with
  | Except.error e => ⟨false, none, some (CloneError.parse e)⟩
  | Except.ok parsed =>
    let parsed1 : URL := if parsed.Scheme = [] then { parsed with Scheme := "http".toList } else parsed
    let baseUrl1 := os.UrlString parsed1
    match os.Parse baseUrl1 with
    | Except.error e => ⟨false, none, some (CloneError.parse e)⟩
    | Except.ok parsed2 =>
      let baseDir := if dir = [] then parsed2.Host else dir
      let check := checkTarget baseDir (os.Exists baseDir) (os.IsFolder baseDir)
        (os.IsEmpty baseDir) (os.RemoveAll baseDir) force keep
      match check.err with
      | some e => ⟨check.removed, none, some e⟩
      | none =>
        ⟨check.removed, some (baseUrl1, baseDir),
          (os.FetchGit check.removed baseUrl1 baseDir).map CloneError.fetchGit⟩

/-! ## `FetchGit`: the reflog step of the seeding phase -/

/-- The collaborators of the reflog step that are not among the sources. -/
structure ReflogEnv where
  /-- Go `utils.Url(base, path)` -/
  Url : GoString → GoString → GoString
  /-- the error of `ioutil.ReadFile(path)`, if any -/
  ReadFile : FS → GoString → Option GoString
  /-- Go `refLogRegex.FindAllSubmatch(content, -1)`: the matches of the reflog
  pattern in their order, each with its submatches (the whole match first, the
  captured hash second); the pattern is a package variable outside the sources -/
  refLogRegex : GoString → List (List GoString)
  /-- the error of `utils.CreateParentFolders(path)`, if any -/
  CreateParentFolders : FS → GoString → Option GoString
  /-- the error of `ioutil.WriteFile(path, body, os.ModePerm)`, if any -/
  WriteFile : FS → GoString → GoString → Option GoString

/-- What the walk over `.git/logs` has gathered and changed so far: the list
`files` and the local files. -/
structure SeedState where
  files : List GoString
  fs : FS

/-- Lines 266-296 of `clone.go`: the function that `filepath.Walk` calls on a
file `path` (not a directory) under `.git/logs`; `none` is a panic. -/
def visitLogFile (env : ReflogEnv) (gitRefsDir refLogPrefix path : GoString)
    (s : SeedState) : Option SeedState :=
  let s1 : SeedState := { s with files := s.files ++ [path] }
  if hasPrefix path refLogPrefix then
    let refName := trimPrefix path refLogPrefix
    let filePath := env.Url gitRefsDir refName
    if !pathExists s1.fs filePath then
      match env.ReadFile s1.fs path, s1.fs path with
      | some _, _ => some s1
      | none, none => some s1
      | none, some content =>
        let logObjs := env.refLogRegex content
        match logObjs.getLast? with
        | none => none
        | some lastEntry =>
          match lastEntry.get? 1 with
          | none => none
          | some lastEntryObj =>
            if env.CreateParentFolders s1.fs filePath ≠ none then some s1
            else if env.WriteFile s1.fs filePath lastEntryObj ≠ none then some s1
            else some { s1 with fs := writeFile s1.fs filePath lastEntryObj }
    else some s1
  else some s1

/-! ## `FetchGit`: checkout, recovery and the ignored-files pass -/

/-- The outcome of one line of `.gitignore` in the ignored-files pass. -/
inductive LineOutcome where
  /-- Go `continue`: no job for this line -/
  | skip
  /-- Go `jt.AddJob(line)` -/
  | enqueue (job : GoString)
  /-- the index expression `commentStrip[0]` is out of range -/
  | panic
deriving DecidableEq

/-- Lines 490-496 of `clone.go`: the body of the loop over the lines of
`.gitignore`, for the line `text` that the scanner delivers. -/
def ignoreLine (text : GoString) : LineOutcome :=
  let line := trimSpace text
  let commentStrip := SplitN line "#".toList 1
  match commentStrip.get? 0 with
  | none => LineOutcome.panic
  | some line =>
    if line = [] ∨ hasPrefix line "!".toList ∨ hasSuffix line "/".toList ∨ '*' ∈ line ∨
        hasSuffix line ".php".toList then LineOutcome.skip
    else LineOutcome.enqueue line

/-- Lines 489-497 of `clone.go`: the jobs that the loop over the lines of
`.gitignore` enqueues, in their order; `none` is a panic. -/
def ignoreJobs : List GoString → Option (List GoString)
  | [] => some []
  | text :: rest =>
    match ignoreLine text with
    | LineOutcome.panic => none
    | LineOutcome.skip => ignoreJobs rest
    | LineOutcome.enqueue job => (ignoreJobs rest).map fun jobs => job :: jobs

/-- The error of Go `cmd.Run()`: an `*exec.ExitError` with the exit code of its
`ProcessState`, or any other error. -/
inductive RunError where
  | exit (code : Int)
  | other (e : GoString)
deriving DecidableEq

/-- The errors that the last part of `FetchGit` returns. -/
inductive FetchError where
  /-- the error of `cmd.Run()` itself -/
  | checkout (e : RunError)
  /-- the error of `ioutil.ReadAll(stderr)` -/
  | readStderr (e : GoString)
  /-- the error of `os.Open(indexPath)` -/
  | openIndex (e : GoString)
  /-- the error of `os.Open(ignorePath)` -/
  | openIgnore (e : GoString)
  /-- the error of `scanner.Err()` -/
  | scanner (e : GoString)
deriving DecidableEq

/-- The answers of the outside world to the last part of `FetchGit`. -/
structure CheckoutEnv where
  /-- Go `utils.Exists(baseDir)` after the object walk -/
  baseDirExists : Bool
  /-- the error of `cmd.Run()` for `git checkout .`, if any -/
  run : Option RunError
  /-- the error of `ioutil.ReadAll(stderr)`, if any -/
  readAll : Option GoString
  /-- Go `utils.Exists(indexPath)` -/
  indexExists : Bool
  /-- the error of `os.Open(indexPath)`, if any -/
  openIndex : Option GoString
  /-- Go `utils.Exists(ignorePath)` -/
  ignoreExists : Bool
  /-- the error of `os.Open(ignorePath)`, if any -/
  openIgnore : Option GoString
  /-- the lines of `.gitignore` that the scanner delivers -/
  ignoreLines : List GoString
  /-- the error of `scanner.Err()`, if any -/
  scannerErr : Option GoString

/-- What the last part of `FetchGit` did: whether it entered the recovery of
missing files (lines 380-471), the jobs of the ignored-files pass (if it ran
its workers), and the error returned. -/
structure CheckoutOutcome where
  recovery : Bool
  ignored : Option (List GoString)
  err : Option FetchError
deriving DecidableEq

/-- Lines 476-508 of `clone.go`: the ignored-files pass; `none` is a panic. -/
def ignorePass (o : CheckoutEnv) (recovery : Bool) : Option CheckoutOutcome :=
  if o.ignoreExists then
    match o.openIgnore with
    | some e => some ⟨recovery, none, some (FetchError.openIgnore e)⟩
    | none =>
      match ignoreJobs o.ignoreLines with
      | none => none
      | some jobs =>
        match o.scannerErr with
        | some e => some ⟨recovery, none, some (FetchError.scanner e)⟩
        | none => some ⟨recovery, some jobs, none⟩
  else some ⟨recovery, none, none⟩

/-- Lines 368-510 of `clone.go`: the last part of `FetchGit`, from the test of
the local directory to the return, with the work of the recovery (the three
worker pools of lines 381-471) left out; `none` is a panic. -/
def checkoutPhase (o : CheckoutEnv) : Option CheckoutOutcome :=
  if !o.baseDirExists then some ⟨false, none, none⟩
  else
    match o.run with
    | none => some ⟨false, none, none⟩
    | some err =>
      if err = RunError.exit 255 ∨ err = RunError.exit 128 then
        match o.readAll with
        | some e => some ⟨true, none, some (FetchError.readStderr e)⟩
        | none =>
          if o.indexExists then
            match o.openIndex with
            | some e => some ⟨true, none, some (FetchError.openIndex e)⟩
            | none => ignorePass o true
          else ignorePass o true
      else some ⟨false, none, some (FetchError.checkout err)⟩

/-! ## Sample inputs

A small environment on which the statements are evaluated: two objects, a tag
`hashA` that points to a blob `hashB`. -/

/-- A stand-in for `utils.Url`: base and path joined by a slash. -/
def slashJoin (base path : GoString) : GoString := base ++ '/' :: path

/-- A stand-in for the decoding of stored objects: `b...` is a blob and
`t<hash>` is a tag with target `<hash>`. -/
def sampleDecode : RawObject → Option GitObject
  | 'b' :: _ => some GitObject.blob
  | 't' :: target => some (GitObject.tag target)
  | _ => none

def sampleUrl : GoString := "http://host".toList

def sampleDir : GoString := "repo".toList

def hashA : GoString := "5f3a9c0e7b1d2a4468ac0d9e1f2b3c4d5e6f7a8b".toList

def hashB : GoString := "0b1c2d3e4f5a69788796a5b4c3d2e1f00f1e2d3c".toList

def bodyA : GoString := 't' :: hashB

def bodyB : GoString := "blob".toList

/-- A server that serves the two objects and nothing else. -/
def serverOk (_ : List GoString) (uri : GoString) : Response :=
  if uri = slashJoin sampleUrl (objectFile hashA) then ⟨200, bodyA, none⟩
  else if uri = slashJoin sampleUrl (objectFile hashB) then ⟨200, bodyB, none⟩
  else ⟨404, [], none⟩

/-- The same server behind a rate limit: the first GET of an URI is answered
with status 429, every later one as by `serverOk`. -/
def server429 (trace : List GoString) (uri : GoString) : Response :=
  if uri ∈ trace then serverOk trace uri else ⟨429, [], none⟩

/-- The sample collaborators around a given server. -/
def sampleEnv (server : List GoString → GoString → Response) : Env where
  Url := slashJoin
  Get := server
  IsHtml := fun body => decide ("<html".toList <+: body)
  IsEmptyBytes := fun body => body.isEmpty
  CreateParentFolders := fun _ _ => none
  WriteFile := fun _ _ _ => none
  EncodedObject := fun fs obj => fs (slashJoin sampleDir (objectFile obj))
  DecodeObject := fun _ encObj => sampleDecode encObj

/-- No local file. -/
def emptyFS : FS := fun _ => none

/-- The state in which the object walk starts on the given queue, before any
local object exists. -/
def startState (queue : List GoString) : State :=
  ⟨[], false, 0, ⟨queue, 0⟩, emptyFS, []⟩

/-- The reference graph of the sample. -/
def sampleRefs (h : GoString) : List GoString := if h = hashA then [hashB] else []

/-- The objects that `serverOk` serves. -/
def sampleServed (h : GoString) : Option GoString :=
  if h = hashA then some bodyA else if h = hashB then some bodyB else none

/-- A state whose store already holds the object `hashA`. -/
def resumedState : State :=
  ⟨[], false, 0, ⟨[], 0⟩, writeFile emptyFS (slashJoin sampleDir (objectFile hashA)) bodyA, []⟩

/-- A state whose store already holds both objects, with `hashA` queued. -/
def fullState : State :=
  ⟨[], false, 0, ⟨[hashA], 0⟩,
    writeFile (writeFile emptyFS (slashJoin sampleDir (objectFile hashA)) bodyA)
      (slashJoin sampleDir (objectFile hashB)) bodyB, []⟩

/-- A stand-in for the reflog pattern: every line of the form
`<old> <new> <rest>` matches, with `<new>` as the captured hash. -/
def sampleRefLog (content : GoString) : List (List GoString) :=
  (content.splitOn '\n').filterMap fun line =>
    match line.splitOn ' ' with
    | old :: new :: _ :: _ => if old.length = 40 ∧ new.length = 40 then some [line, new] else none
    | _ => none

/-- The sample collaborators of the reflog step. -/
def sampleReflogEnv : ReflogEnv where
  Url := slashJoin
  ReadFile := fun _ _ => none
  refLogRegex := sampleRefLog
  CreateParentFolders := fun _ _ => none
  WriteFile := fun _ _ _ => none

/-- The path of the sample reflog file. -/
def sampleLogPath : GoString := "repo/.git/logs/refs/heads/feature".toList

/-- The local files when the walk over `.git/logs` comes to a reflog with the
given content. -/
def reflogFS (content : GoString) : FS := writeFile emptyFS sampleLogPath content

/-- An outside world in which `git checkout .` fails with the given error and
nothing else goes wrong. -/
def checkoutFails (e : RunError) : CheckoutEnv :=
  ⟨true, some e, none, false, none, false, none, [], none⟩

/-! ## Notions used in the statements -/

/-- What the properties below need of `utils.Url` under a fixed base: the file
names of different loose objects are sent to different results. -/
def UrlSeparatesObjects (env : Env) (base : GoString) : Prop :=
  ∀ a b : GoString, env.Url base (objectFile a) = env.Url base (objectFile b) →
    objectFile a = objectFile b

/-- The base URL ends with none of the three suffixes. -/
def SuffixFree (b : GoString) : Prop :=
  ¬ "/".toList <:+ b ∧ ¬ "/HEAD".toList <:+ b ∧ ¬ "/.git".toList <:+ b

/-- The response is one that `findObjWork` stores: no transport error, status
200 and a body that is neither HTML nor empty. -/
def Accepted (env : Env) (r : Response) : Prop :=
  r.err = none ∧ r.code = 200 ∧ env.IsHtml r.body = false ∧ env.IsEmptyBytes r.body = false

/-- The worker returned within the given number of iterations, in this state. -/
def WalkResult.final : WalkResult → Option State
  | WalkResult.finished s => some s
  | WalkResult.panicked => none
  | WalkResult.running _ => none

/-- The state in which the walk stands after its iterations, when it has not
panicked. -/
def WalkResult.state : WalkResult → Option State
  | WalkResult.finished s => some s
  | WalkResult.panicked => none
  | WalkResult.running s => some s

/-- The hashes that `findObjWork` enqueues for `obj` once its loose object is in
the store `fs`: those referenced by the decoded object, none when reading or
decoding fails. -/
def referencedBy (env : Env) (fs : FS) (obj : GoString) : List GoString :=
  match env.EncodedObject fs obj with
  | none => []
  | some encObj =>
    match env.DecodeObject fs encObj with
    | none => []
    | some decObj => GetReferencedHashes decObj

/-- The store `fs` holds the loose object of the hash `h` (of at least two
bytes) under the local directory. -/
def StoreHolds (env : Env) (baseDir : GoString) (fs : FS) (h : GoString) : Prop :=
  2 ≤ h.length ∧ pathExists fs (env.Url baseDir (objectFile h)) = true

/-- The hashes reachable from the seeded set by following references through
objects the server serves: `refs h` are the hashes the object `h` references
and `served h` is the body under which the server serves `h`, if it does. -/
inductive Reachable (refs : GoString → List GoString) (served : GoString → Option GoString)
    (seeds : List GoString) : GoString → Prop where
  | seed (h : GoString) (hs : h ∈ seeds) : Reachable refs served seeds h
  | ref (h c : GoString) (hr : Reachable refs served seeds h) (hserved : (served h).isSome)
      (hc : c ∈ refs h) : Reachable refs served seeds c

/-- A restricted setting for the object walk: the reference graph `refs`, the
seeded hashes `seeds` and the local files `fs0`, behind a server that never
refuses an object of `served`: it answers every GET of it, the first one
included, with status 200 and the body.  A server that answers an object with
429 or with an error once and serves it later is not of this kind. -/
structure ServedGraph (env : Env) (baseUrl baseDir : GoString)
    (refs : GoString → List GoString) (served : GoString → Option GoString)
    (seeds : List GoString) (fs0 : FS) : Prop where
  /-- a seeded job is not the empty string -/
  seed_ne : ∀ h ∈ seeds, h ≠ []
  /-- a served object references no empty string -/
  ref_ne : ∀ h, (served h).isSome → ∀ c ∈ refs h, c ≠ []
  /-- a served hash has the two bytes that name its folder -/
  served_len : ∀ h, (served h).isSome → 2 ≤ h.length
  /-- the server serves the object: every GET of its loose-object URI is answered
  without error, with status 200 and with the body, which is neither HTML nor
  empty -/
  serves : ∀ h body, served h = some body → ∀ trace,
    (env.Get trace (env.Url baseUrl (objectFile h))).err = none ∧
    (env.Get trace (env.Url baseUrl (objectFile h))).code = 200 ∧
    (env.Get trace (env.Url baseUrl (objectFile h))).body = body ∧
    env.IsHtml body = false ∧ env.IsEmptyBytes body = false
  /-- the served body is the object of the graph: once it is the content of the
  loose-object file, the storage yields the hashes the object references -/
  decodes : ∀ h body, served h = some body → ∀ fs : FS,
    fs (env.Url baseDir (objectFile h)) = some body → referencedBy env fs h = refs h
  /-- a loose-object file that is present before the walk holds the served body -/
  local_ok : ∀ h body, served h = some body →
    fs0 (env.Url baseDir (objectFile h)) = none ∨
    fs0 (env.Url baseDir (objectFile h)) = some body
  /-- different loose objects have different local files -/
  paths : UrlSeparatesObjects env baseDir
  /-- the folders and the file of a served object can be written -/
  fs_ok : ∀ h body, served h = some body → ∀ fs : FS,
    env.CreateParentFolders fs (env.Url baseDir (objectFile h)) = none ∧
    env.WriteFile fs (env.Url baseDir (objectFile h)) body = none

/-- The invariant of the object walk over a served graph. -/
def WalkInv (env : Env) (baseDir : GoString)
    (refs : GoString → List GoString) (served : GoString → Option GoString)
    (seeds : List GoString) (s : State) : Prop :=
  (∀ h ∈ seeds, h ∈ s.checkedObjs ∨ h ∈ s.jt.Queue) ∧
  (∀ h ∈ s.checkedObjs, (served h).isSome →
    ∀ c ∈ refs h, c ∈ s.checkedObjs ∨ c ∈ s.jt.Queue) ∧
  (∀ h body, served h = some body →
    s.fs (env.Url baseDir (objectFile h)) = none ∨
    s.fs (env.Url baseDir (objectFile h)) = some body)

/-- The GETs issued so far are those of pairwise different checked hashes. -/
def TraceOfChecked (env : Env) (baseUrl : GoString) (s : State) : Prop :=
  ∃ fetched : List GoString, fetched.Nodup ∧
    (∀ x ∈ fetched, x ∈ s.checkedObjs ∧ 2 ≤ x.length) ∧
    s.trace = fetched.map fun x => env.Url baseUrl (objectFile x)

/-! ## Elementary facts about the state operations -/

@[simp] theorem JobTracker.StartWork_Queue (jt : JobTracker) :
    jt.StartWork.Queue = jt.Queue := rfl

@[simp] theorem JobTracker.StartWork_activeWorkers (jt : JobTracker) :
    jt.StartWork.activeWorkers = jt.activeWorkers + 1 := rfl

@[simp] theorem JobTracker.EndWork_Queue (jt : JobTracker) :
    jt.EndWork.Queue = jt.Queue := rfl

@[simp] theorem JobTracker.EndWork_activeWorkers (jt : JobTracker) :
    jt.EndWork.activeWorkers = jt.activeWorkers - 1 := rfl

@[simp] theorem JobTracker.AddJob_Queue (jt : JobTracker) (job : GoString) :
    (jt.AddJob job).Queue = jt.Queue ++ [job] := rfl

@[simp] theorem JobTracker.AddJob_activeWorkers (jt : JobTracker) (job : GoString) :
    (jt.AddJob job).activeWorkers = jt.activeWorkers := rfl

@[simp] theorem State.StartWork_checkedObjs (s : State) :
    s.StartWork.checkedObjs = s.checkedObjs := rfl

@[simp] theorem State.StartWork_ratelimited (s : State) :
    s.StartWork.ratelimited = s.ratelimited := rfl

@[simp] theorem State.StartWork_sleeps (s : State) :
    s.StartWork.sleeps = s.sleeps := rfl

@[simp] theorem State.StartWork_jt (s : State) :
    s.StartWork.jt = s.jt.StartWork := rfl

@[simp] theorem State.StartWork_fs (s : State) :
    s.StartWork.fs = s.fs := rfl

@[simp] theorem State.StartWork_trace (s : State) :
    s.StartWork.trace = s.trace := rfl

@[simp] theorem State.EndWork_checkedObjs (s : State) :
    s.EndWork.checkedObjs = s.checkedObjs := rfl

@[simp] theorem State.EndWork_ratelimited (s : State) :
    s.EndWork.ratelimited = s.ratelimited := rfl

@[simp] theorem State.EndWork_sleeps (s : State) :
    s.EndWork.sleeps = s.sleeps := rfl

@[simp] theorem State.EndWork_jt (s : State) :
    s.EndWork.jt = s.jt.EndWork := rfl

@[simp] theorem State.EndWork_fs (s : State) :
    s.EndWork.fs = s.fs := rfl

@[simp] theorem State.EndWork_trace (s : State) :
    s.EndWork.trace = s.trace := rfl

@[simp] theorem State.markChecked_checkedObjs (s : State) (obj : GoString) :
    (s.markChecked obj).checkedObjs = obj :: s.checkedObjs := rfl

@[simp] theorem State.markChecked_ratelimited (s : State) (obj : GoString) :
    (s.markChecked obj).ratelimited = s.ratelimited := rfl

@[simp] theorem State.markChecked_sleeps (s : State) (obj : GoString) :
    (s.markChecked obj).sleeps = s.sleeps := rfl

@[simp] theorem State.markChecked_jt (s : State) (obj : GoString) :
    (s.markChecked obj).jt = s.jt := rfl

@[simp] theorem State.markChecked_fs (s : State) (obj : GoString) :
    (s.markChecked obj).fs = s.fs := rfl

@[simp] theorem State.markChecked_trace (s : State) (obj : GoString) :
    (s.markChecked obj).trace = s.trace := rfl

@[simp] theorem State.recordGet_checkedObjs (s : State) (uri : GoString) :
    (s.recordGet uri).checkedObjs = s.checkedObjs := rfl

@[simp] theorem State.recordGet_ratelimited (s : State) (uri : GoString) :
    (s.recordGet uri).ratelimited = s.ratelimited := rfl

@[simp] theorem State.recordGet_sleeps (s : State) (uri : GoString) :
    (s.recordGet uri).sleeps = s.sleeps := rfl

@[simp] theorem State.recordGet_jt (s : State) (uri : GoString) :
    (s.recordGet uri).jt = s.jt := rfl

@[simp] theorem State.recordGet_fs (s : State) (uri : GoString) :
    (s.recordGet uri).fs = s.fs := rfl

@[simp] theorem State.recordGet_trace (s : State) (uri : GoString) :
    (s.recordGet uri).trace = s.trace ++ [uri] := rfl

@[simp] theorem State.storeFile_checkedObjs (s : State) (path body : GoString) :
    (s.storeFile path body).checkedObjs = s.checkedObjs := rfl

@[simp] theorem State.storeFile_ratelimited (s : State) (path body : GoString) :
    (s.storeFile path body).ratelimited = s.ratelimited := rfl

@[simp] theorem State.storeFile_sleeps (s : State) (path body : GoString) :
    (s.storeFile path body).sleeps = s.sleeps := rfl

@[simp] theorem State.storeFile_jt (s : State) (path body : GoString) :
    (s.storeFile path body).jt = s.jt := rfl

@[simp] theorem State.storeFile_fs (s : State) (path body : GoString) :
    (s.storeFile path body).fs = writeFile s.fs path body := rfl

@[simp] theorem State.storeFile_trace (s : State) (path body : GoString) :
    (s.storeFile path body).trace = s.trace := rfl

@[simp] theorem State.AddJob_checkedObjs (s : State) (job : GoString) :
    (s.AddJob job).checkedObjs = s.checkedObjs := rfl

@[simp] theorem State.AddJob_ratelimited (s : State) (job : GoString) :
    (s.AddJob job).ratelimited = s.ratelimited := rfl

@[simp] theorem State.AddJob_sleeps (s : State) (job : GoString) :
    (s.AddJob job).sleeps = s.sleeps := rfl

@[simp] theorem State.AddJob_jt (s : State) (job : GoString) :
    (s.AddJob job).jt = s.jt.AddJob job := rfl

@[simp] theorem State.AddJob_fs (s : State) (job : GoString) :
    (s.AddJob job).fs = s.fs := rfl

@[simp] theorem State.AddJob_trace (s : State) (job : GoString) :
    (s.AddJob job).trace = s.trace := rfl

@[simp] theorem setRatelimited_checkedObjs (s : State) :
    (setRatelimited s).checkedObjs = s.checkedObjs := rfl

@[simp] theorem setRatelimited_ratelimited (s : State) :
    (setRatelimited s).ratelimited = true := rfl

@[simp] theorem setRatelimited_sleeps (s : State) :
    (setRatelimited s).sleeps = s.sleeps := rfl

@[simp] theorem setRatelimited_jt (s : State) :
    (setRatelimited s).jt = s.jt := rfl

@[simp] theorem setRatelimited_fs (s : State) :
    (setRatelimited s).fs = s.fs := rfl

@[simp] theorem setRatelimited_trace (s : State) :
    (setRatelimited s).trace = s.trace := rfl

@[simp] theorem State.receive_checkedObjs (s : State) (rest : List GoString) :
    (s.receive rest).checkedObjs = s.checkedObjs := rfl

@[simp] theorem State.receive_ratelimited (s : State) (rest : List GoString) :
    (s.receive rest).ratelimited = s.ratelimited := rfl

@[simp] theorem State.receive_sleeps (s : State) (rest : List GoString) :
    (s.receive rest).sleeps = s.sleeps := rfl

@[simp] theorem State.receive_fs (s : State) (rest : List GoString) :
    (s.receive rest).fs = s.fs := rfl

@[simp] theorem State.receive_trace (s : State) (rest : List GoString) :
    (s.receive rest).trace = s.trace := rfl

@[simp] theorem State.receive_Queue (s : State) (rest : List GoString) :
    (s.receive rest).jt.Queue = rest := rfl

@[simp] theorem State.receive_activeWorkers (s : State) (rest : List GoString) :
    (s.receive rest).jt.activeWorkers = s.jt.activeWorkers := rfl

@[simp] theorem checkRatelimted_checkedObjs (s : State) :
    (checkRatelimted s).checkedObjs = s.checkedObjs := by
  unfold checkRatelimted; split <;> rfl

@[simp] theorem checkRatelimted_jt (s : State) :
    (checkRatelimted s).jt = s.jt := by
  unfold checkRatelimted; split <;> rfl

@[simp] theorem checkRatelimted_fs (s : State) :
    (checkRatelimted s).fs = s.fs := by
  unfold checkRatelimted; split <;> rfl

@[simp] theorem checkRatelimted_trace (s : State) :
    (checkRatelimted s).trace = s.trace := by
  unfold checkRatelimted; split <;> rfl

@[simp] theorem checkRatelimted_ratelimited (s : State) :
    (checkRatelimted s).ratelimited = false := by
  unfold checkRatelimted; split <;> simp_all

@[simp] theorem State.AddJobs_checkedObjs (jobs : List GoString) (s : State) :
    (s.AddJobs jobs).checkedObjs = s.checkedObjs := by
  induction jobs generalizing s with
  | nil => rfl
  | cons j js ih => simp only [State.AddJobs, List.foldl_cons] at ih ⊢; rw [ih]; rfl

@[simp] theorem State.AddJobs_ratelimited (jobs : List GoString) (s : State) :
    (s.AddJobs jobs).ratelimited = s.ratelimited := by
  induction jobs generalizing s with
  | nil => rfl
  | cons j js ih => simp only [State.AddJobs, List.foldl_cons] at ih ⊢; rw [ih]; rfl

@[simp] theorem State.AddJobs_sleeps (jobs : List GoString) (s : State) :
    (s.AddJobs jobs).sleeps = s.sleeps := by
  induction jobs generalizing s with
  | nil => rfl
  | cons j js ih => simp only [State.AddJobs, List.foldl_cons] at ih ⊢; rw [ih]; rfl

@[simp] theorem State.AddJobs_fs (jobs : List GoString) (s : State) :
    (s.AddJobs jobs).fs = s.fs := by
  induction jobs generalizing s with
  | nil => rfl
  | cons j js ih => simp only [State.AddJobs, List.foldl_cons] at ih ⊢; rw [ih]; rfl

@[simp] theorem State.AddJobs_trace (jobs : List GoString) (s : State) :
    (s.AddJobs jobs).trace = s.trace := by
  induction jobs generalizing s with
  | nil => rfl
  | cons j js ih => simp only [State.AddJobs, List.foldl_cons] at ih ⊢; rw [ih]; rfl

@[simp] theorem State.AddJobs_activeWorkers (jobs : List GoString) (s : State) :
    (s.AddJobs jobs).jt.activeWorkers = s.jt.activeWorkers := by
  induction jobs generalizing s with
  | nil => rfl
  | cons j js ih => simp only [State.AddJobs, List.foldl_cons] at ih ⊢; rw [ih]; rfl

@[simp] theorem State.AddJobs_Queue (jobs : List GoString) (s : State) :
    (s.AddJobs jobs).jt.Queue = s.jt.Queue ++ jobs := by
  induction jobs generalizing s with
  | nil => simp [State.AddJobs]
  | cons j js ih =>
    simp only [State.AddJobs, List.foldl_cons] at ih ⊢
    rw [ih]; simp

@[simp] theorem writeFile_same (fs : FS) (path body : GoString) :
    writeFile fs path body path = some body := by
  simp [writeFile]

theorem writeFile_other (fs : FS) (path body q : GoString) (hq : q ≠ path) :
    writeFile fs path body q = fs q := by
  simp [writeFile, hq]

theorem enqueueReferenced_eq (env : Env) (obj : GoString) (s : State) :
    enqueueReferenced env obj s = s.AddJobs (referencedBy env s.fs obj) := by
  unfold enqueueReferenced referencedBy
  split
  · rfl
  · split <;> rfl

@[simp] theorem enqueueReferenced_checkedObjs (env : Env) (obj : GoString) (s : State) :
    (enqueueReferenced env obj s).checkedObjs = s.checkedObjs := by
  rw [enqueueReferenced_eq]; simp

@[simp] theorem enqueueReferenced_trace (env : Env) (obj : GoString) (s : State) :
    (enqueueReferenced env obj s).trace = s.trace := by
  rw [enqueueReferenced_eq]; simp

@[simp] theorem enqueueReferenced_fs (env : Env) (obj : GoString) (s : State) :
    (enqueueReferenced env obj s).fs = s.fs := by
  rw [enqueueReferenced_eq]; simp

@[simp] theorem enqueueReferenced_Queue (env : Env) (obj : GoString) (s : State) :
    (enqueueReferenced env obj s).jt.Queue = s.jt.Queue ++ referencedBy env s.fs obj := by
  rw [enqueueReferenced_eq]; simp

@[simp] theorem enqueueReferenced_activeWorkers (env : Env) (obj : GoString) (s : State) :
    (enqueueReferenced env obj s).jt.activeWorkers = s.jt.activeWorkers := by
  rw [enqueueReferenced_eq]; simp

@[simp] theorem storeObject_checkedObjs (env : Env) (obj fullPath body : GoString) (s : State) :
    (storeObject env obj fullPath body s).checkedObjs = s.checkedObjs := by
  unfold storeObject; split_ifs <;> simp

@[simp] theorem storeObject_trace (env : Env) (obj fullPath body : GoString) (s : State) :
    (storeObject env obj fullPath body s).trace = s.trace := by
  unfold storeObject; split_ifs <;> simp

@[simp] theorem fetchObject_checkedObjs (env : Env) (obj fullPath uri : GoString) (s : State) :
    (fetchObject env obj fullPath uri s).checkedObjs = s.checkedObjs := by
  unfold fetchObject; simp only; split_ifs <;> simp

@[simp] theorem fetchObject_trace (env : Env) (obj fullPath uri : GoString) (s : State) :
    (fetchObject env obj fullPath uri s).trace = s.trace ++ [uri] := by
  unfold fetchObject; simp only; split_ifs <;> simp

/-- The store after the GET and what follows it: as before, or with the response
body written to the file of the object. -/
theorem fetchObject_fs (env : Env) (obj fullPath uri : GoString) (s : State) :
    (fetchObject env obj fullPath uri s).fs = s.fs ∨
    (fetchObject env obj fullPath uri s).fs = writeFile s.fs fullPath (env.Get s.trace uri).body := by
  unfold fetchObject storeObject
  simp only
  split_ifs <;> simp

/-- The queue after the GET and what follows it: jobs are only appended. -/
theorem fetchObject_Queue (env : Env) (obj fullPath uri : GoString) (s : State) :
    ∃ extra, (fetchObject env obj fullPath uri s).jt.Queue = s.jt.Queue ++ extra := by
  unfold fetchObject storeObject
  simp only
  split_ifs
  · exact ⟨[obj], by simp⟩
  · exact ⟨[], by simp⟩
  · exact ⟨[], by simp⟩
  · exact ⟨[], by simp⟩
  · exact ⟨[], by simp⟩
  · exact ⟨[], by simp⟩
  · exact ⟨[], by simp⟩
  · exact ⟨_, enqueueReferenced_Queue _ _ _⟩

@[simp] theorem fetchObject_activeWorkers (env : Env) (obj fullPath uri : GoString) (s : State) :
    (fetchObject env obj fullPath uri s).jt.activeWorkers = s.jt.activeWorkers := by
  unfold fetchObject storeObject
  simp only
  split_ifs <;> simp

/-- An accepted response whose file can be written is stored, and the hashes
referenced by the stored object are enqueued. -/
theorem fetchObject_accepted (env : Env) (obj fullPath uri : GoString) (s : State)
    (hacc : Accepted env (env.Get s.trace uri))
    (hmk : env.CreateParentFolders s.fs fullPath = none)
    (hwr : env.WriteFile s.fs fullPath (env.Get s.trace uri).body = none) :
    fetchObject env obj fullPath uri s =
      enqueueReferenced env obj
        ((s.recordGet uri).storeFile fullPath (env.Get s.trace uri).body) := by
  obtain ⟨h1, h2, h3, h4⟩ := hacc
  unfold fetchObject storeObject
  simp [h1, h2, h3, h4, hmk, hwr]

/-! ## The cases of `findObjWork` -/

/-- A job that is the empty string or an already checked hash is dropped. -/
theorem findObjWork_skip (env : Env) (baseUrl baseDir h : GoString) (s : State)
    (hskip : h = [] ∨ h ∈ s.checkedObjs) :
    findObjWork env baseUrl baseDir h s = some (checkRatelimted s.StartWork).EndWork := by
  unfold findObjWork findObjBody
  simp only [checkRatelimted_checkedObjs, State.StartWork_checkedObjs]
  rcases hskip with h0 | hc
  · simp [h0]
  · by_cases h0 : h = []
    · simp [h0]
    · simp [h0, hc]

/-- A new job of one byte panics. -/
theorem findObjWork_short (env : Env) (baseUrl baseDir obj : GoString) (s : State)
    (hne : obj ≠ []) (hnew : obj ∉ s.checkedObjs) (hlen : obj.length < 2) :
    findObjWork env baseUrl baseDir obj s = none := by
  unfold findObjWork findObjBody
  simp [hne, hnew, hlen]

/-- The first part of `findObjWork` for a job that is a new hash of at least two
bytes: the hash is checked and the work goes on with the local file test. -/
theorem findObjWork_new (env : Env) (baseUrl baseDir h : GoString) (s : State)
    (hlen : 2 ≤ h.length) (hnew : h ∉ s.checkedObjs) :
    findObjWork env baseUrl baseDir h s =
      if pathExists s.fs (env.Url baseDir (objectFile h)) then
        some (enqueueReferenced env h ((checkRatelimted s.StartWork).markChecked h)).EndWork
      else
        some (fetchObject env h (env.Url baseDir (objectFile h))
          (env.Url baseUrl (objectFile h)) ((checkRatelimted s.StartWork).markChecked h)).EndWork := by
  have hne : h ≠ [] := by
    intro h0; rw [h0] at hlen; simp at hlen
  have hlt : ¬ h.length < 2 := by omega
  unfold findObjWork findObjBody
  simp only [checkRatelimted_checkedObjs, checkRatelimted_fs, State.StartWork_checkedObjs,
    State.StartWork_fs, State.markChecked_fs, hne, hnew, hlt, if_false]
  split_ifs <;> rfl

/-- What one call of `findObjWork` does to the checked set and to the trace:
either no request is made, or the job was not checked before, it is checked
now, and the one request made is the GET of its loose-object URI. -/
theorem findObjWork_checked_trace (env : Env) (baseUrl baseDir obj : GoString) (s s1 : State)
    (h : findObjWork env baseUrl baseDir obj s = some s1) :
    (s1.trace = s.trace ∧
      (s1.checkedObjs = s.checkedObjs ∨ s1.checkedObjs = obj :: s.checkedObjs)) ∨
    (obj ∉ s.checkedObjs ∧ 2 ≤ obj.length ∧ s1.checkedObjs = obj :: s.checkedObjs ∧
      s1.trace = s.trace ++ [env.Url baseUrl (objectFile obj)]) := by
  by_cases hskip : obj = [] ∨ obj ∈ s.checkedObjs
  · rw [findObjWork_skip env baseUrl baseDir obj s hskip] at h
    simp only [Option.some.injEq] at h; subst h
    left; simp
  · simp only [not_or] at hskip
    by_cases hlen : obj.length < 2
    · rw [findObjWork_short env baseUrl baseDir obj s hskip.1 hskip.2 hlen] at h
      simp at h
    · rw [findObjWork_new env baseUrl baseDir obj s (by omega) hskip.2] at h
      split_ifs at h <;> simp only [Option.some.injEq] at h <;> subst h
      · left; simp
      · right; exact ⟨hskip.2, by omega, by simp, by simp⟩

/-- The shape of the state after a new job of at least two bytes. -/
theorem findObjWork_new_shape (env : Env) (baseUrl baseDir obj : GoString) (s s1 : State)
    (hlen : 2 ≤ obj.length) (hnew : obj ∉ s.checkedObjs)
    (h1 : findObjWork env baseUrl baseDir obj s = some s1) :
    s1.checkedObjs = obj :: s.checkedObjs ∧
    (∃ extra, s1.jt.Queue = s.jt.Queue ++ extra) ∧
    (s1.fs = s.fs ∨ ∃ body, s1.fs = writeFile s.fs (env.Url baseDir (objectFile obj)) body) := by
  rw [findObjWork_new env baseUrl baseDir obj s hlen hnew] at h1
  split_ifs at h1 <;> simp only [Option.some.injEq] at h1 <;> subst h1
  · exact ⟨by simp, ⟨referencedBy env s.fs obj, by simp⟩, Or.inl (by simp)⟩
  · refine ⟨by simp, ?_, ?_⟩
    · obtain ⟨extra, he⟩ := fetchObject_Queue env obj (env.Url baseDir (objectFile obj))
        (env.Url baseUrl (objectFile obj)) ((checkRatelimted s.StartWork).markChecked obj)
      exact ⟨extra, by simp [he]⟩
    · rcases fetchObject_fs env obj (env.Url baseDir (objectFile obj))
        (env.Url baseUrl (objectFile obj)) ((checkRatelimted s.StartWork).markChecked obj)
        with hf | hf
      · exact Or.inl (by simp [hf])
      · exact Or.inr ⟨(env.Get s.trace (env.Url baseUrl (objectFile obj))).body, by simp [hf]⟩

/-! ## Deduplication -/

/-- Two hashes of at least two bytes with the same loose-object file name are
the same hash. -/
theorem objectFile_inj (a b : GoString) (ha : 2 ≤ a.length) (hb : 2 ≤ b.length)
    (h : objectFile a = objectFile b) : a = b := by
  unfold objectFile at h
  simp only [List.append_assoc, List.append_cancel_left_eq] at h
  have hl : (a.take 2).length = (b.take 2).length := by
    simp only [List.length_take]; omega
  obtain ⟨h1, h2⟩ := List.append_inj h hl
  have h3 : a.drop 2 = b.drop 2 := by
    simp only [List.append_cancel_left_eq] at h2; exact h2
  rw [← List.take_append_drop 2 a, ← List.take_append_drop 2 b, h1, h3]

/-- A list without duplicates holds any given element at most once. -/
theorem nodup_filter_eq_length_le_one {α : Type} [DecidableEq α] (l : List α) (hl : l.Nodup)
    (a : α) : (l.filter fun x => decide (x = a)).length ≤ 1 := by
  induction l with
  | nil => simp
  | cons x xs ih =>
    rw [List.nodup_cons] at hl
    by_cases hx : x = a
    · subst hx
      have hnil : xs.filter (fun y => decide (y = x)) = [] := by
        rw [List.filter_eq_nil_iff]
        intro y hy
        simp only [decide_eq_true_eq]
        rintro rfl
        exact hl.1 hy
      simp [List.filter_cons, hnil]
    · simp only [List.filter_cons, hx, decide_False, Bool.false_eq_true, if_false]
      exact ih hl.2

theorem TraceOfChecked_findObjWork (env : Env) (baseUrl baseDir obj : GoString) (s s1 : State)
    (hs : TraceOfChecked env baseUrl s)
    (h : findObjWork env baseUrl baseDir obj s = some s1) : TraceOfChecked env baseUrl s1 := by
  obtain ⟨fetched, hnd, hmem, htr⟩ := hs
  rcases findObjWork_checked_trace env baseUrl baseDir obj s s1 h with ⟨ht, hc⟩ | ⟨hn, hlen, hc, ht⟩
  · refine ⟨fetched, hnd, ?_, by rw [ht, htr]⟩
    intro x hx
    refine ⟨?_, (hmem x hx).2⟩
    rcases hc with hc | hc <;> rw [hc]
    · exact (hmem x hx).1
    · exact List.mem_cons_of_mem _ (hmem x hx).1
  · refine ⟨fetched ++ [obj], ?_, ?_, ?_⟩
    · rw [List.nodup_append]
      refine ⟨hnd, List.nodup_singleton _, ?_⟩
      intro x hx hx1
      rw [List.mem_singleton] at hx1
      subst hx1
      exact hn (hmem x hx).1
    · intro x hx
      rw [List.mem_append, List.mem_singleton] at hx
      rcases hx with hx | rfl
      · exact ⟨by rw [hc]; exact List.mem_cons_of_mem _ (hmem x hx).1, (hmem x hx).2⟩
      · exact ⟨by rw [hc]; exact List.mem_cons_self _ _, hlen⟩
    · rw [ht, htr]; simp

theorem TraceOfChecked_processJobs (env : Env) (baseUrl baseDir : GoString)
    (jobs : List GoString) (s : State) (hs : TraceOfChecked env baseUrl s) :
    TraceOfChecked env baseUrl (processJobs env baseUrl baseDir jobs s) := by
  induction jobs generalizing s with
  | nil => exact hs
  | cons obj rest ih =>
    unfold processJobs
    cases h : findObjWork env baseUrl baseDir obj s with
    | none => exact hs
    | some s1 => exact ih s1 (TraceOfChecked_findObjWork env baseUrl baseDir obj s s1 hs h)

/-- C1 (dedup).  Whatever the server answers and whatever the sequence of jobs
(repetitions included) handed to `findObjWork`, starting with no request made
(and with any checked-hash set, the empty one included), the GET of the
loose-object URI of any one hash occurs at most once among the requests issued.
Of `utils.Url` it is only required that it sends the file names of different
loose objects under the base URL to different URIs. -/
theorem findObjWork_dedup (env : Env) (baseUrl baseDir : GoString)
    (hUrl : UrlSeparatesObjects env baseUrl)
    (jobs : List GoString) (s0 : State) (htrace : s0.trace = []) (h : GoString) :
    ((processJobs env baseUrl baseDir jobs s0).trace.filter
      fun uri => decide (uri = env.Url baseUrl (objectFile h))).length ≤ 1 := by
  have h0 : TraceOfChecked env baseUrl s0 := ⟨[], List.nodup_nil, by simp, by simp [htrace]⟩
  obtain ⟨fetched, hnd, hmem, htr⟩ := TraceOfChecked_processJobs env baseUrl baseDir jobs s0 h0
  rw [htr]
  have hmap : (fetched.map fun x => env.Url baseUrl (objectFile x)).Nodup := by
    refine List.Nodup.map_on ?_ hnd
    intro x hx y hy hxy
    exact objectFile_inj x y (hmem x hx).2 (hmem y hy).2 (hUrl x y hxy)
  exact nodup_filter_eq_length_le_one _ hmap _

/-! ## The outcomes of one job -/

/-- C10 (the outcomes of the GET).  Let `h` be a hash of at least two bytes that
is not yet checked and whose loose object is not present locally.  Then
`findObjWork` returns after exactly one GET, that of the loose-object URI, and

* if the store has changed, the response was accepted (no transport error,
  status 200, body neither HTML nor empty), the file of `h` holds exactly the
  response body and no other file has changed;
* if the response was accepted and the parent folders and the file could be
  written, the store has changed in this way;
* if the response was not accepted, the store is unchanged, and the queue is
  unchanged too, except that a response without transport error and with
  status 429 appends exactly the one job `h`. -/
theorem findObjWork_fetch_outcomes (env : Env) (baseUrl baseDir h : GoString) (s : State)
    (hlen : 2 ≤ h.length) (hnew : h ∉ s.checkedObjs)
    (habsent : pathExists s.fs (env.Url baseDir (objectFile h)) = false) :
    ∃ s1, findObjWork env baseUrl baseDir h s = some s1 ∧
      s1.trace = s.trace ++ [env.Url baseUrl (objectFile h)] ∧
      (s1.fs ≠ s.fs →
        Accepted env (env.Get s.trace (env.Url baseUrl (objectFile h))) ∧
        s1.fs (env.Url baseDir (objectFile h)) =
          some (env.Get s.trace (env.Url baseUrl (objectFile h))).body ∧
        ∀ q, q ≠ env.Url baseDir (objectFile h) → s1.fs q = s.fs q) ∧
      (Accepted env (env.Get s.trace (env.Url baseUrl (objectFile h))) →
        env.CreateParentFolders s.fs (env.Url baseDir (objectFile h)) = none →
        env.WriteFile s.fs (env.Url baseDir (objectFile h))
          (env.Get s.trace (env.Url baseUrl (objectFile h))).body = none →
        s1.fs = writeFile s.fs (env.Url baseDir (objectFile h))
          (env.Get s.trace (env.Url baseUrl (objectFile h))).body) ∧
      (¬ Accepted env (env.Get s.trace (env.Url baseUrl (objectFile h))) →
        s1.fs = s.fs ∧
        s1.jt.Queue =
          if (env.Get s.trace (env.Url baseUrl (objectFile h))).err = none ∧
              (env.Get s.trace (env.Url baseUrl (objectFile h))).code = 429
          then s.jt.Queue ++ [h] else s.jt.Queue) := by
  rw [findObjWork_new env baseUrl baseDir h s hlen hnew, habsent]
  simp only [Bool.false_eq_true, if_false, Option.some.injEq, exists_eq_left']
  generalize hr : env.Get s.trace (env.Url baseUrl (objectFile h)) = r
  unfold fetchObject storeObject Accepted
  simp only [checkRatelimted_trace, checkRatelimted_fs, State.markChecked_trace,
    State.StartWork_trace, hr]
  split_ifs <;> simp_all [writeFile_other]

/-- A new hash of at least two bytes whose loose-object file exists locally and
is read and decoded: no request, no change of the store, and the hashes that
the decoded object references are appended to the queue. -/
theorem findObjWork_present_decoded (env : Env) (baseUrl baseDir h : GoString) (s : State)
    (hlen : 2 ≤ h.length) (hnew : h ∉ s.checkedObjs)
    (hpresent : pathExists s.fs (env.Url baseDir (objectFile h)) = true)
    (encObj : RawObject) (decObj : GitObject)
    (henc : env.EncodedObject s.fs h = some encObj)
    (hdec : env.DecodeObject s.fs encObj = some decObj) :
    ∃ s1, findObjWork env baseUrl baseDir h s = some s1 ∧
      s1.trace = s.trace ∧ s1.fs = s.fs ∧
      s1.jt.Queue = s.jt.Queue ++ GetReferencedHashes decObj := by
  rw [findObjWork_new env baseUrl baseDir h s hlen hnew, hpresent]
  simp only [if_true, Option.some.injEq, exists_eq_left']
  refine ⟨by simp, by simp, ?_⟩
  simp [referencedBy, henc, hdec]

/-- One job over a store that holds its object: no request, no change of the
store, and the queue grows by the hashes the object references if the job is
new, by nothing if it was checked before. -/
theorem findObjWork_held (env : Env) (baseUrl baseDir h : GoString) (s : State)
    (hh : StoreHolds env baseDir s.fs h) :
    ∃ s1, findObjWork env baseUrl baseDir h s = some s1 ∧
      s1.trace = s.trace ∧ s1.fs = s.fs ∧
      (s1.jt.Queue = s.jt.Queue ∨ s1.jt.Queue = s.jt.Queue ++ referencedBy env s.fs h) := by
  by_cases hc : h ∈ s.checkedObjs
  · rw [findObjWork_skip env baseUrl baseDir h s (Or.inr hc)]
    exact ⟨_, rfl, by simp, by simp, Or.inl (by simp)⟩
  · rw [findObjWork_new env baseUrl baseDir h s hh.1 hc, hh.2]
    simp only [if_true, Option.some.injEq, exists_eq_left']
    exact ⟨by simp, by simp, Or.inr (by simp)⟩

/-- The resumed walk.  When the store holds the object of every queued hash and
of every hash referenced by an object it holds, the worker loop never panics,
issues no HTTP request and leaves the store as it is, however long it runs. -/
theorem FindObjectsWorker_resumed (env : Env) (baseUrl baseDir : GoString) (n : Nat) (s : State)
    (hqueue : ∀ h ∈ s.jt.Queue, StoreHolds env baseDir s.fs h)
    (hrefs : ∀ h, StoreHolds env baseDir s.fs h →
      ∀ c ∈ referencedBy env s.fs h, StoreHolds env baseDir s.fs c) :
    FindObjectsWorker env baseUrl baseDir n s ≠ WalkResult.panicked ∧
    ∀ s1, (FindObjectsWorker env baseUrl baseDir n s = WalkResult.finished s1 ∨
        FindObjectsWorker env baseUrl baseDir n s = WalkResult.running s1) →
      s1.trace = s.trace ∧ s1.fs = s.fs := by
  induction n generalizing s with
  | zero =>
    unfold FindObjectsWorker
    refine ⟨by simp, ?_⟩
    intro s1 h1
    simp only [reduceCtorEq, WalkResult.running.injEq, false_or] at h1
    subst h1; exact ⟨rfl, rfl⟩
  | succ n ih =>
    unfold FindObjectsWorker
    cases hq : s.jt.Queue with
    | nil =>
      simp only
      split_ifs
      · exact ih s hqueue hrefs
      · refine ⟨by simp, ?_⟩
        intro s1 h1
        simp only [WalkResult.finished.injEq, reduceCtorEq, or_false] at h1
        subst h1; exact ⟨rfl, rfl⟩
    | cons obj rest =>
      simp only
      have hobj : StoreHolds env baseDir s.fs obj := hqueue obj (by rw [hq]; simp)
      obtain ⟨s1, h1, ht, hf, hQ⟩ := findObjWork_held env baseUrl baseDir obj
        (s.receive rest) hobj
      rw [h1]
      simp only [State.receive_trace, State.receive_fs, State.receive_Queue] at ht hf hQ
      have hrefs1 : ∀ h, StoreHolds env baseDir s1.fs h →
          ∀ c ∈ referencedBy env s1.fs h, StoreHolds env baseDir s1.fs c := by
        rw [hf]; exact hrefs
      have hqueue1 : ∀ h ∈ s1.jt.Queue, StoreHolds env baseDir s1.fs h := by
        intro h hh
        rw [hf]
        rcases hQ with hQ | hQ
        · rw [hQ] at hh
          exact hqueue h (by rw [hq]; exact List.mem_cons_of_mem _ hh)
        · rw [hQ, List.mem_append] at hh
          rcases hh with hh | hh
          · exact hqueue h (by rw [hq]; exact List.mem_cons_of_mem _ hh)
          · exact hrefs obj hobj h hh
      obtain ⟨hp, hrest⟩ := ih s1 hqueue1 hrefs1
      refine ⟨hp, ?_⟩
      intro s2 h2
      obtain ⟨a, b⟩ := hrest s2 h2
      exact ⟨by rw [a, ht], by rw [b, hf]⟩

/-- C4 (already fetched).  For every hash `h` of at least two bytes that is not
yet checked and whose loose-object file exists under the local directory and is
read and decoded successfully, `findObjWork` returns without issuing any HTTP
request, leaves the store unchanged and appends to the queue exactly the hashes
referenced by the decoded object, in their order.  So an object walk over a
store that already holds the object of every queued hash and of every hash
referenced by an object it holds never panics, issues no HTTP request and
leaves the store as it is, however many jobs it takes. -/
theorem findObjWork_already_fetched (env : Env) (baseUrl baseDir : GoString) :
    (∀ (h : GoString) (s : State) (encObj : RawObject) (decObj : GitObject),
      2 ≤ h.length → h ∉ s.checkedObjs →
      pathExists s.fs (env.Url baseDir (objectFile h)) = true →
      env.EncodedObject s.fs h = some encObj →
      env.DecodeObject s.fs encObj = some decObj →
      ∃ s1, findObjWork env baseUrl baseDir h s = some s1 ∧
        s1.trace = s.trace ∧ s1.fs = s.fs ∧
        s1.jt.Queue = s.jt.Queue ++ GetReferencedHashes decObj) ∧
    (∀ (n : Nat) (s : State),
      (∀ h ∈ s.jt.Queue, StoreHolds env baseDir s.fs h) →
      (∀ h, StoreHolds env baseDir s.fs h →
        ∀ c ∈ referencedBy env s.fs h, StoreHolds env baseDir s.fs c) →
      FindObjectsWorker env baseUrl baseDir n s ≠ WalkResult.panicked ∧
      ∀ s1, (FindObjectsWorker env baseUrl baseDir n s = WalkResult.finished s1 ∨
          FindObjectsWorker env baseUrl baseDir n s = WalkResult.running s1) →
        s1.trace = s.trace ∧ s1.fs = s.fs) :=
  ⟨fun h s encObj decObj hlen hnew hpresent henc hdec =>
      findObjWork_present_decoded env baseUrl baseDir h s hlen hnew hpresent encObj decObj henc hdec,
    fun n s hqueue hrefs => FindObjectsWorker_resumed env baseUrl baseDir n s hqueue hrefs⟩

/-! ## Graph closure of the object walk -/

/-- A new job that is a served object of the graph: the hashes it references
are enqueued, and its file holds the served body afterwards. -/
theorem findObjWork_served (env : Env) (baseUrl baseDir : GoString)
    (refs : GoString → List GoString) (served : GoString → Option GoString)
    (seeds : List GoString) (fs0 : FS)
    (W : ServedGraph env baseUrl baseDir refs served seeds fs0)
    (obj body : GoString) (s s1 : State)
    (hserved : served obj = some body) (hnew : obj ∉ s.checkedObjs)
    (hfs : s.fs (env.Url baseDir (objectFile obj)) = none ∨
      s.fs (env.Url baseDir (objectFile obj)) = some body)
    (h1 : findObjWork env baseUrl baseDir obj s = some s1) :
    (∀ c ∈ refs obj, c ∈ s1.jt.Queue) ∧
    (s1.fs = s.fs ∨ s1.fs = writeFile s.fs (env.Url baseDir (objectFile obj)) body) := by
  have hlen : 2 ≤ obj.length := W.served_len obj (by simp [hserved])
  rw [findObjWork_new env baseUrl baseDir obj s hlen hnew] at h1
  rcases hfs with hfs | hfs
  · have hex : pathExists s.fs (env.Url baseDir (objectFile obj)) = false := by
      simp [pathExists, hfs]
    rw [hex] at h1
    simp only [Bool.false_eq_true, if_false, Option.some.injEq] at h1
    obtain ⟨e1, e2, e3, e4, e5⟩ := W.serves obj body hserved
      ((checkRatelimted s.StartWork).markChecked obj).trace
    obtain ⟨f1, f2⟩ := W.fs_ok obj body hserved
      ((checkRatelimted s.StartWork).markChecked obj).fs
    rw [fetchObject_accepted] at h1
    · subst h1
      rw [e3]
      have hd := W.decodes obj body hserved
        (writeFile s.fs (env.Url baseDir (objectFile obj)) body) (by simp)
      refine ⟨?_, Or.inr (by simp)⟩
      intro c hc
      simp [hd, hc]
    · exact ⟨e1, e2, by rw [e3]; exact e4, by rw [e3]; exact e5⟩
    · exact f1
    · rw [e3]; exact f2
  · have hex : pathExists s.fs (env.Url baseDir (objectFile obj)) = true := by
      simp [pathExists, hfs]
    rw [hex] at h1
    simp only [if_true, Option.some.injEq] at h1
    subst h1
    have hd := W.decodes obj body hserved s.fs hfs
    refine ⟨?_, Or.inl (by simp)⟩
    intro c hc
    simp [hd, hc]

/-- One iteration of the worker loop that takes a job keeps the invariant of
the walk. -/
theorem WalkInv_step (env : Env) (baseUrl baseDir : GoString)
    (refs : GoString → List GoString) (served : GoString → Option GoString)
    (seeds : List GoString) (fs0 : FS)
    (W : ServedGraph env baseUrl baseDir refs served seeds fs0)
    (s s1 : State) (obj : GoString) (rest : List GoString)
    (hq : s.jt.Queue = obj :: rest)
    (hI : WalkInv env baseDir refs served seeds s)
    (h1 : findObjWork env baseUrl baseDir obj (s.receive rest) = some s1) :
    WalkInv env baseDir refs served seeds s1 := by
  obtain ⟨hseed, hchild, hfile⟩ := hI
  rw [hq] at hseed hchild
  by_cases hskip : obj = [] ∨ obj ∈ s.checkedObjs
  · rw [findObjWork_skip env baseUrl baseDir obj (s.receive rest) hskip] at h1
    simp only [Option.some.injEq] at h1
    subst h1
    have hkeep : ∀ c : GoString, c ≠ [] → (c ∈ s.checkedObjs ∨ c ∈ obj :: rest) →
        c ∈ s.checkedObjs ∨ c ∈ rest := by
      intro c hc hmem
      rcases hmem with hmem | hmem
      · exact Or.inl hmem
      · rw [List.mem_cons] at hmem
        rcases hmem with rfl | hmem
        · rcases hskip with h0 | h0
          · exact absurd h0 hc
          · exact Or.inl h0
        · exact Or.inr hmem
    refine ⟨?_, ?_, ?_⟩
    · intro h hh
      simpa using hkeep h (W.seed_ne h hh) (hseed h hh)
    · intro h hh hs c hc
      simp only [State.EndWork_checkedObjs, checkRatelimted_checkedObjs,
        State.StartWork_checkedObjs, State.receive_checkedObjs] at hh
      simpa using hkeep c (W.ref_ne h hs c hc) (hchild h hh hs c hc)
    · intro h body hs
      simpa using hfile h body hs
  · simp only [not_or] at hskip
    obtain ⟨hne, hnew⟩ := hskip
    have hlen : 2 ≤ obj.length := by
      by_contra hlt
      rw [findObjWork_short env baseUrl baseDir obj (s.receive rest) hne hnew (by omega)] at h1
      simp at h1
    obtain ⟨hck, ⟨extra, hQ⟩, hfsShape⟩ :=
      findObjWork_new_shape env baseUrl baseDir obj (s.receive rest) s1 hlen hnew h1
    simp only [State.receive_checkedObjs] at hck
    simp only [State.receive_Queue] at hQ
    simp only [State.receive_fs] at hfsShape
    have hkeep : ∀ c : GoString, (c ∈ s.checkedObjs ∨ c ∈ obj :: rest) →
        c ∈ s1.checkedObjs ∨ c ∈ s1.jt.Queue := by
      intro c hmem
      rw [hck, hQ]
      rcases hmem with hmem | hmem
      · exact Or.inl (List.mem_cons_of_mem _ hmem)
      · rw [List.mem_cons] at hmem
        rcases hmem with rfl | hmem
        · exact Or.inl (List.mem_cons_self _ _)
        · exact Or.inr (List.mem_append_left _ hmem)
    refine ⟨?_, ?_, ?_⟩
    · intro h hh
      exact hkeep h (hseed h hh)
    · intro h hh hs c hc
      rw [hck, List.mem_cons] at hh
      rcases hh with rfl | hh
      · obtain ⟨body, hbody⟩ := Option.isSome_iff_exists.mp hs
        exact Or.inr ((findObjWork_served env baseUrl baseDir refs served seeds fs0 W h body
          (s.receive rest) s1 hbody hnew (by simpa using hfile h body hbody) h1).1 c hc)
      · exact hkeep c (hchild h hh hs c hc)
    · intro h body hs
      by_cases hobj : h = obj
      · subst hobj
        rcases (findObjWork_served env baseUrl baseDir refs served seeds fs0 W h body
          (s.receive rest) s1 hs hnew (by simpa using hfile h body hs) h1).2 with hf | hf
        · rw [hf]; simpa using hfile h body hs
        · rw [hf]; right; simp
      · rcases hfsShape with hf | ⟨b, hf⟩
        · rw [hf]; exact hfile h body hs
        · have hpath : env.Url baseDir (objectFile h) ≠ env.Url baseDir (objectFile obj) := by
            intro heq
            exact hobj (objectFile_inj h obj (W.served_len h (by simp [hs])) hlen
              (W.paths h obj heq))
          rw [hf, writeFile_other _ _ _ _ hpath]
          exact hfile h body hs

/-- The invariant holds in every state the walk comes to, and the queue is
empty when the worker returns. -/
theorem WalkInv_reached (env : Env) (baseUrl baseDir : GoString)
    (refs : GoString → List GoString) (served : GoString → Option GoString)
    (seeds : List GoString) (fs0 : FS)
    (W : ServedGraph env baseUrl baseDir refs served seeds fs0)
    (n : Nat) (s s1 : State)
    (hI : WalkInv env baseDir refs served seeds s)
    (hstate : (FindObjectsWorker env baseUrl baseDir n s).state = some s1) :
    WalkInv env baseDir refs served seeds s1 ∧
    (FindObjectsWorker env baseUrl baseDir n s = WalkResult.finished s1 → s1.jt.Queue = []) := by
  induction n generalizing s with
  | zero =>
    unfold FindObjectsWorker at hstate ⊢
    simp only [WalkResult.state, Option.some.injEq] at hstate
    subst hstate
    exact ⟨hI, by simp⟩
  | succ n ih =>
    unfold FindObjectsWorker at hstate ⊢
    cases hq : s.jt.Queue with
    | nil =>
      rw [hq] at hstate
      simp only at hstate ⊢
      split_ifs at hstate ⊢
      · exact ih s hI hstate
      · simp only [WalkResult.state, Option.some.injEq] at hstate
        subst hstate
        exact ⟨hI, fun _ => hq⟩
    | cons obj rest =>
      rw [hq] at hstate
      simp only at hstate ⊢
      cases h1 : findObjWork env baseUrl baseDir obj (s.receive rest) with
      | none => rw [h1] at hstate; simp [WalkResult.state] at hstate
      | some s2 =>
        rw [h1] at hstate
        simp only at hstate ⊢
        exact ih s2 (WalkInv_step env baseUrl baseDir refs served seeds fs0 W s s2 obj rest hq hI h1)
          hstate

/-- Graph closure behind a server that never refuses a served object
(`ServedGraph`).  Let the object walk start with an empty checked-hash set and
a queue holding the seeded hashes.  When the walk has come to an empty queue,
as it has when the worker returns, the checked-hash set contains every hash
reachable from the seeded set by following references through the objects of
`served`. -/
theorem FindObjectsWorker_closure_unrefused (env : Env) (baseUrl baseDir : GoString)
    (refs : GoString → List GoString) (served : GoString → Option GoString)
    (seeds : List GoString) (s0 : State)
    (W : ServedGraph env baseUrl baseDir refs served seeds s0.fs)
    (hchecked : s0.checkedObjs = []) (hqueue : s0.jt.Queue = seeds)
    (n : Nat) (s : State)
    (hstate : (FindObjectsWorker env baseUrl baseDir n s0).state = some s)
    (hempty : s.jt.Queue = [])
    (h : GoString) (hreach : Reachable refs served seeds h) :
    h ∈ s.checkedObjs := by
  have h0 : WalkInv env baseDir refs served seeds s0 := by
    refine ⟨?_, ?_, W.local_ok⟩
    · intro x hx; right; rw [hqueue]; exact hx
    · intro x hx; rw [hchecked] at hx; simp at hx
  obtain ⟨⟨hseed, hchild, _⟩, _⟩ :=
    WalkInv_reached env baseUrl baseDir refs served seeds s0.fs W n s0 s h0 hstate
  rw [hempty] at hseed hchild
  induction hreach with
  | seed x hx => simpa using hseed x hx
  | ref x c _ hs hc ih => simpa using hchild x ih hs c hc

/-! ## `Clone`: the target directory -/

theorem trimSuffix_append (x suffix : GoString) : trimSuffix (x ++ suffix) suffix = x := by
  unfold trimSuffix hasSuffix
  simp

theorem trimSuffix_of_not (x suffix : GoString) (h : ¬ suffix <:+ x) : trimSuffix x suffix = x := by
  unfold trimSuffix hasSuffix
  simp [h]

/-- A list that ends with a non-empty list ends with the last element of it. -/
theorem getLast?_of_suffix (suffix l : GoString) (hne : suffix ≠ []) (h : suffix <:+ l) :
    l.getLast? = suffix.getLast? := by
  obtain ⟨t, rfl⟩ := h
  cases suffix with
  | nil => exact absurd rfl hne
  | cons c cs => simp [List.getLast?_append, List.getLast?_eq_getLast _ hne]

/-- C6, the counterexample: a URL with two trailing slashes keeps one of them. -/
theorem stripSuffixes_keeps_slash :
    stripSuffixes "http://host//".toList = "http://host/".toList ∧
    ¬ SuffixFree (stripSuffixes "http://host//".toList) := by
  unfold SuffixFree
  decide

/-- C6, as amended.  `Clone` removes at most one trailing `/`, then at most
one trailing `/HEAD`, then at most one trailing `/.git`: for every base URL `b`
that ends with none of the three suffixes, and every URL made of `b` followed
by an optional `/.git`, an optional `/HEAD` and an optional `/`, in this order,
the suffix-stripping step returns `b`, which ends with none of the suffixes. -/
theorem stripSuffixes_canonical (b : GoString) (hb : SuffixFree b) (git head slash : Bool) :
    stripSuffixes
        (b ++ (if git then "/.git".toList else []) ++ (if head then "/HEAD".toList else []) ++
          (if slash then "/".toList else [])) = b ∧
    SuffixFree (stripSuffixes
        (b ++ (if git then "/.git".toList else []) ++ (if head then "/HEAD".toList else []) ++
          (if slash then "/".toList else []))) := by
  obtain ⟨h1, h2, h3⟩ := hb
  have key : stripSuffixes
        (b ++ (if git then "/.git".toList else []) ++ (if head then "/HEAD".toList else []) ++
          (if slash then "/".toList else [])) = b := by
    have nslash : ∀ (x w : GoString) (c : Char), c ≠ '/' → ¬ "/".toList <:+ x ++ (w ++ [c]) := by
      intro x w c hc hs
      have := getLast?_of_suffix _ _ (by decide) hs
      rw [← List.append_assoc, List.getLast?_append] at this
      simp at this
      exact hc this
    have nhead : ∀ (x w : GoString) (c : Char), c ≠ 'D' → ¬ "/HEAD".toList <:+ x ++ (w ++ [c]) := by
      intro x w c hc hs
      have := getLast?_of_suffix _ _ (by decide) hs
      rw [← List.append_assoc, List.getLast?_append] at this
      simp at this
      exact hc this
    have g1 : ¬ "/".toList <:+ b ++ "/.git".toList :=
      nslash b "/.gi".toList 't' (by decide)
    have g2 : ¬ "/HEAD".toList <:+ b ++ "/.git".toList :=
      nhead b "/.gi".toList 't' (by decide)
    have g3 : ¬ "/".toList <:+ b ++ "/HEAD".toList :=
      nslash b "/HEA".toList 'D' (by decide)
    have g4 : ¬ "/".toList <:+ b ++ "/.git".toList ++ "/HEAD".toList :=
      nslash (b ++ "/.git".toList) "/HEA".toList 'D' (by decide)
    unfold stripSuffixes
    cases git <;> cases head <;> cases slash <;>
      simp only [Bool.false_eq_true, if_false, if_true, List.append_nil]
    · rw [trimSuffix_of_not _ _ h1, trimSuffix_of_not _ _ h2, trimSuffix_of_not _ _ h3]
    · rw [trimSuffix_append, trimSuffix_of_not _ _ h2, trimSuffix_of_not _ _ h3]
    · rw [trimSuffix_of_not _ _ g3, trimSuffix_append, trimSuffix_of_not _ _ h3]
    · rw [trimSuffix_append, trimSuffix_append, trimSuffix_of_not _ _ h3]
    · rw [trimSuffix_of_not _ _ g1, trimSuffix_of_not _ _ g2, trimSuffix_append]
    · rw [trimSuffix_append, trimSuffix_of_not _ _ g2, trimSuffix_append]
    · rw [trimSuffix_of_not _ _ g4, trimSuffix_append, trimSuffix_append]
    · rw [trimSuffix_append, trimSuffix_append, trimSuffix_append]
  rw [key]
  exact ⟨rfl, h1, h2, h3⟩

/-! ## `FetchGit`: the ignored-files pass -/

/-- With the limit 1, `strings.SplitN` cuts nothing off: the one piece is the
whole string. -/
theorem SplitN_one (s sep : GoString) (hsep : sep ≠ []) : SplitN s sep 1 = [s] := by
  unfold SplitN
  have hk : min (Int.toNat 1) (s.length + 1) - 1 = 0 := by
    simp
  simp only [one_ne_zero, if_false, hsep, show ¬ ((1 : Int) < 0) by decide, hk]
  rfl

/-- A line of `.gitignore` is either skipped or enqueued whole (trimmed of
white space only): nothing is stripped from a `#` onward. -/
theorem ignoreLine_whole (text : GoString) :
    ignoreLine text = LineOutcome.skip ∨
    ignoreLine text = LineOutcome.enqueue (trimSpace text) := by
  unfold ignoreLine
  simp only [SplitN_one (trimSpace text) "#".toList (by decide), List.get?_cons_zero]
  split_ifs
  · exact Or.inl rfl
  · exact Or.inr rfl

/-- The loop over the lines of `.gitignore` does not panic. -/
theorem ignoreJobs_total (lines : List GoString) : ∃ jobs, ignoreJobs lines = some jobs := by
  induction lines with
  | nil => exact ⟨[], rfl⟩
  | cons text rest ih =>
    obtain ⟨jobs, hj⟩ := ih
    unfold ignoreJobs
    rcases ignoreLine_whole text with h | h
    · rw [h]; exact ⟨jobs, hj⟩
    · rw [h]; exact ⟨trimSpace text :: jobs, by simp [hj]⟩

/-- C7, the failing input.  The comment line `# local settings` of a
`.gitignore` is enqueued as a download job, `#` included, and so is the comment
at the end of the line `config.yml # local`. -/
theorem ignoreLine_comment_enqueued :
    ignoreLine "# local settings".toList = LineOutcome.enqueue "# local settings".toList ∧
    ignoreLine "config.yml # local".toList = LineOutcome.enqueue "config.yml # local".toList ∧
    ignoreJobs ["# local settings".toList, "build/".toList, "secret.env".toList] =
      some ["# local settings".toList, "secret.env".toList] := by
  decide

/-! ## `FetchGit`: the reflog step -/

/-- When the reflog pattern finds no entry in the content of a reflog file
whose ref file is absent, the step panics: `logObjs[len(logObjs)-1]` is out of
range. -/
theorem visitLogFile_no_entry (env : ReflogEnv) (gitRefsDir refLogPrefix path : GoString)
    (s : SeedState) (content : GoString)
    (hlog : hasPrefix path refLogPrefix = true)
    (habsent : pathExists s.fs (env.Url gitRefsDir (trimPrefix path refLogPrefix)) = false)
    (hread : env.ReadFile s.fs path = none) (hcontent : s.fs path = some content)
    (hnone : env.refLogRegex content = []) :
    visitLogFile env gitRefsDir refLogPrefix path s = none := by
  unfold visitLogFile
  simp [hlog, habsent, hread, hcontent, hnone]

/-- When the reflog pattern finds entries, the last of which captures `hash`,
and the ref file is absent and can be written, the step leaves a ref file
with the content `hash`. -/
theorem visitLogFile_synthesizes (env : ReflogEnv) (gitRefsDir refLogPrefix path : GoString)
    (s : SeedState) (content whole hash : GoString) (earlier : List (List GoString))
    (more : List GoString)
    (hlog : hasPrefix path refLogPrefix = true)
    (habsent : pathExists s.fs (env.Url gitRefsDir (trimPrefix path refLogPrefix)) = false)
    (hread : env.ReadFile s.fs path = none) (hcontent : s.fs path = some content)
    (hmatch : env.refLogRegex content = earlier ++ [whole :: hash :: more])
    (hmk : env.CreateParentFolders s.fs (env.Url gitRefsDir (trimPrefix path refLogPrefix)) = none)
    (hwr : env.WriteFile s.fs (env.Url gitRefsDir (trimPrefix path refLogPrefix)) hash = none) :
    ∃ s1, visitLogFile env gitRefsDir refLogPrefix path s = some s1 ∧
      s1.fs (env.Url gitRefsDir (trimPrefix path refLogPrefix)) = some hash := by
  unfold visitLogFile
  simp [hlog, habsent, hread, hcontent, hmatch, hmk, hwr]

/-- C8, the failing input.  A reflog file under `.git/logs/refs/` that holds
no reflog entry (here the text `not found`), with no ref file beside it, makes
the step panic; a reflog with entries yields the ref file with the hash of the
last entry. -/
theorem visitLogFile_panics_without_entry :
    (visitLogFile sampleReflogEnv "repo/.git/refs".toList "repo/.git/logs/refs/".toList
      sampleLogPath ⟨[], reflogFS "not found\n".toList⟩).isNone = true ∧
    (visitLogFile sampleReflogEnv "repo/.git/refs".toList "repo/.git/logs/refs/".toList
      sampleLogPath ⟨[], reflogFS (hashA ++ ' ' :: hashB ++ " A <a@b> 1 +0000\tx\n".toList)⟩).map
        (fun s => s.fs "repo/.git/refs/heads/feature".toList) = some (some hashB) := by
  decide

/-! ## `FetchGit`: the exit status of the checkout -/

/-- C9, the counterexample: when `git checkout .` exits with status 1,
`FetchGit` does not enter the recovery and returns the error of the checkout. -/
theorem checkoutPhase_exit_1 :
    checkoutPhase (checkoutFails (RunError.exit 1)) =
      some ⟨false, none, some (FetchError.checkout (RunError.exit 1))⟩ := by
  decide

/-- C9, as amended.  With the local directory present and `git checkout .`
failing with the error `e`, the last part of `FetchGit` returns, and

* if `e` is the exit status 128 or 255, it has entered the recovery of missing
  files and the error it returns, if any, is not that of the checkout;
* for every other exit status, and for an error that is not an exit status, it
  has not entered the recovery and returns the error of the checkout. -/
theorem checkoutPhase_exit_codes (o : CheckoutEnv) (e : RunError) :
    ∃ r, checkoutPhase { o with baseDirExists := true, run := some e } = some r ∧
      ((e = RunError.exit 128 ∨ e = RunError.exit 255) →
        r.recovery = true ∧ ∀ e1, r.err ≠ some (FetchError.checkout e1)) ∧
      (¬ (e = RunError.exit 128 ∨ e = RunError.exit 255) →
        r = ⟨false, none, some (FetchError.checkout e)⟩) := by
  have hpass : ∀ o1 : CheckoutEnv, ∃ r, ignorePass o1 true = some r ∧
      r.recovery = true ∧ ∀ e1, r.err ≠ some (FetchError.checkout e1) := by
    intro o1
    unfold ignorePass
    obtain ⟨jobs, hj⟩ := ignoreJobs_total o1.ignoreLines
    rw [hj]
    split_ifs
    · cases o1.openIgnore with
      | some e1 => exact ⟨_, rfl, rfl, by simp⟩
      | none =>
        cases o1.scannerErr with
        | some e1 => exact ⟨_, rfl, rfl, by simp⟩
        | none => exact ⟨_, rfl, rfl, by simp⟩
    · exact ⟨_, rfl, rfl, by simp⟩
  unfold checkoutPhase
  by_cases hc : e = RunError.exit 128 ∨ e = RunError.exit 255
  · have hc1 : e = RunError.exit 255 ∨ e = RunError.exit 128 := hc.symm
    simp only [Bool.not_true, Bool.false_eq_true, if_false, hc1, if_true]
    cases o.readAll with
    | some e1 => exact ⟨_, rfl, fun _ => ⟨rfl, by simp⟩, fun h => absurd hc h⟩
    | none =>
      simp only
      split_ifs
      · cases o.openIndex with
        | some e1 => exact ⟨_, rfl, fun _ => ⟨rfl, by simp⟩, fun h => absurd hc h⟩
        | none =>
          obtain ⟨r, h1, h2, h3⟩ := hpass { o with baseDirExists := true, run := some e }
          exact ⟨r, h1, fun _ => ⟨h2, h3⟩, fun h => absurd hc h⟩
      · obtain ⟨r, h1, h2, h3⟩ := hpass { o with baseDirExists := true, run := some e }
        exact ⟨r, h1, fun _ => ⟨h2, h3⟩, fun h => absurd hc h⟩
  · have hc1 : ¬ (e = RunError.exit 255 ∨ e = RunError.exit 128) := fun h => hc h.symm
    simp only [Bool.not_true, Bool.false_eq_true, if_false, hc1]
    exact ⟨_, rfl, fun h => absurd h hc, fun _ => rfl⟩

/-! ## The rate limit -/

/-- A response with status 429 and no transport error: the job is enqueued
again and nothing is stored. -/
theorem fetchObject_429 (env : Env) (obj fullPath uri : GoString) (s : State)
    (herr : (env.Get s.trace uri).err = none) (hcode : (env.Get s.trace uri).code = 429) :
    fetchObject env obj fullPath uri s = (setRatelimited (s.recordGet uri)).AddJob obj := by
  unfold fetchObject
  simp [herr, hcode]

theorem FindObjectsWorker_take (env : Env) (baseUrl baseDir obj : GoString)
    (rest : List GoString) (n : Nat) (s s1 : State) (hq : s.jt.Queue = obj :: rest)
    (h1 : findObjWork env baseUrl baseDir obj (s.receive rest) = some s1) :
    FindObjectsWorker env baseUrl baseDir (n + 1) s = FindObjectsWorker env baseUrl baseDir n s1 := by
  rw [FindObjectsWorker, hq]
  simp only [h1]

theorem FindObjectsWorker_return (env : Env) (baseUrl baseDir : GoString) (n : Nat) (s : State)
    (hq : s.jt.Queue = []) (ha : s.jt.activeWorkers = 0) :
    FindObjectsWorker env baseUrl baseDir (n + 1) s = WalkResult.finished s := by
  rw [FindObjectsWorker, hq]
  simp [JobTracker.HasWork, hq, ha]

/-- The retry after a 429 is lost.  Let the walk start on the one job `h`, a
new hash that is not present locally, and let the server answer the first GET
of its loose object with status 429.  Whatever the server would answer later,
the worker returns after three iterations (the job, the job enqueued again,
the empty queue) with one GET made and no file written. -/
theorem FindObjectsWorker_retry_lost (env : Env) (baseUrl baseDir h : GoString) (s : State)
    (hlen : 2 ≤ h.length) (hnew : h ∉ s.checkedObjs)
    (habsent : pathExists s.fs (env.Url baseDir (objectFile h)) = false)
    (hqueue : s.jt.Queue = [h]) (hactive : s.jt.activeWorkers = 0)
    (herr : (env.Get s.trace (env.Url baseUrl (objectFile h))).err = none)
    (hcode : (env.Get s.trace (env.Url baseUrl (objectFile h))).code = 429) :
    ∃ s1, FindObjectsWorker env baseUrl baseDir 3 s = WalkResult.finished s1 ∧
      s1.jt.Queue = [] ∧ s1.fs = s.fs ∧
      s1.trace = s.trace ++ [env.Url baseUrl (objectFile h)] := by
  have step1 : ∃ sA, findObjWork env baseUrl baseDir h (s.receive []) = some sA ∧
      sA.jt.Queue = [h] ∧ h ∈ sA.checkedObjs ∧ sA.fs = s.fs ∧
      sA.trace = s.trace ++ [env.Url baseUrl (objectFile h)] ∧ sA.jt.activeWorkers = 0 := by
    rw [findObjWork_new env baseUrl baseDir h _ hlen (by simpa using hnew)]
    simp only [State.receive_fs, habsent, Bool.false_eq_true, if_false]
    rw [fetchObject_429]
    · exact ⟨_, rfl, by simp, by simp, by simp, by simp, by simp [hactive]⟩
    · simpa using herr
    · simpa using hcode
  obtain ⟨sA, hA, qA, cA, fA, tA, aA⟩ := step1
  have step2 := findObjWork_skip env baseUrl baseDir h (sA.receive []) (Or.inr (by simpa using cA))
  refine ⟨(checkRatelimted (sA.receive []).StartWork).EndWork, ?_, by simp, by simp [fA],
    by simp [tA]⟩
  rw [show (3 : Nat) = 2 + 1 from rfl,
    FindObjectsWorker_take env baseUrl baseDir h [] 2 s sA hqueue hA,
    show (2 : Nat) = 1 + 1 from rfl,
    FindObjectsWorker_take env baseUrl baseDir h [] 1 sA _ qA step2,
    show (1 : Nat) = 0 + 1 from rfl,
    FindObjectsWorker_return env baseUrl baseDir 0 _ (by simp) (by simp [aA])]

/-- The walk after a 429 checks nothing but the refused hash.  Under the
conditions of `FindObjectsWorker_retry_lost` the worker returns with `h` as the
one new member of the checked-hash set, whatever `h` references and whatever
the server would answer to a second GET. -/
theorem FindObjectsWorker_retry_lost_checked (env : Env) (baseUrl baseDir h : GoString)
    (s : State) (hlen : 2 ≤ h.length) (hnew : h ∉ s.checkedObjs)
    (habsent : pathExists s.fs (env.Url baseDir (objectFile h)) = false)
    (hqueue : s.jt.Queue = [h]) (hactive : s.jt.activeWorkers = 0)
    (herr : (env.Get s.trace (env.Url baseUrl (objectFile h))).err = none)
    (hcode : (env.Get s.trace (env.Url baseUrl (objectFile h))).code = 429) :
    ∃ s1, FindObjectsWorker env baseUrl baseDir 3 s = WalkResult.finished s1 ∧
      s1.jt.Queue = [] ∧ s1.checkedObjs = h :: s.checkedObjs := by
  have step1 : ∃ sA, findObjWork env baseUrl baseDir h (s.receive []) = some sA ∧
      sA.jt.Queue = [h] ∧ sA.checkedObjs = h :: s.checkedObjs ∧ sA.jt.activeWorkers = 0 := by
    rw [findObjWork_new env baseUrl baseDir h _ hlen (by simpa using hnew)]
    simp only [State.receive_fs, habsent, Bool.false_eq_true, if_false]
    rw [fetchObject_429]
    · exact ⟨_, rfl, by simp, by simp, by simp [hactive]⟩
    · simpa using herr
    · simpa using hcode
  obtain ⟨sA, hA, qA, cA, aA⟩ := step1
  have step2 := findObjWork_skip env baseUrl baseDir h (sA.receive [])
    (Or.inr (by simp [cA]))
  refine ⟨(checkRatelimted (sA.receive []).StartWork).EndWork, ?_, by simp, by simp [cA]⟩
  rw [show (3 : Nat) = 2 + 1 from rfl,
    FindObjectsWorker_take env baseUrl baseDir h [] 2 s sA hqueue hA,
    show (2 : Nat) = 1 + 1 from rfl,
    FindObjectsWorker_take env baseUrl baseDir h [] 1 sA _ qA step2,
    show (1 : Nat) = 0 + 1 from rfl,
    FindObjectsWorker_return env baseUrl baseDir 0 _ (by simp) (by simp [aA])]

/-- C3, the failing input.  Behind a server that answers the first GET of a
loose object with status 429 and every later one with status 200 and the
object, the walk seeded with `hashA` returns on an empty queue after one GET,
with `hashA` checked and no object stored; behind the same server without the
rate limit it returns with both objects of the graph stored. -/
theorem FindObjectsWorker_429_object_missing :
    ((FindObjectsWorker (sampleEnv server429) sampleUrl sampleDir 3 (startState [hashA])).final.map
        (fun s => (s.jt.Queue, s.checkedObjs, s.trace)) =
      some ([], [hashA], [slashJoin sampleUrl (objectFile hashA)]) ∧
    (FindObjectsWorker (sampleEnv server429) sampleUrl sampleDir 3 (startState [hashA])).final.map
        (fun s => s.fs (slashJoin sampleDir (objectFile hashA))) = some none) ∧
    ((FindObjectsWorker (sampleEnv serverOk) sampleUrl sampleDir 3 (startState [hashA])).final.map
        (fun s => (s.jt.Queue, s.checkedObjs, s.trace)) =
      some ([], [hashB, hashA],
        [slashJoin sampleUrl (objectFile hashA), slashJoin sampleUrl (objectFile hashB)]) ∧
    (FindObjectsWorker (sampleEnv serverOk) sampleUrl sampleDir 3 (startState [hashA])).final.map
        (fun s => s.fs (slashJoin sampleDir (objectFile hashA))) = some (some bodyA)) := by
  decide

/-- C2, the failing input.  The server `server429` serves the tag `hashA`: it
answers the first GET of its loose object with status 429 and every later one
with status 200 and the body `bodyA`, which the storage decodes to a tag that
references `hashB`; so `hashB` is reachable from the seeded `hashA` through an
object the server serves.  Yet the walk seeded with `hashA`, started with an
empty checked-hash set, returns on an empty queue with `hashA` alone checked:
`hashB` is not in the checked-hash set.  Behind `serverOk`, which differs only
in the first answer, the walk returns with `hashB` checked. -/
theorem FindObjectsWorker_graph_closure_broken :
    (((server429 [slashJoin sampleUrl (objectFile hashA)]
          (slashJoin sampleUrl (objectFile hashA))).code = 200 ∧
        (server429 [slashJoin sampleUrl (objectFile hashA)]
          (slashJoin sampleUrl (objectFile hashA))).body = bodyA ∧
        (server429 [slashJoin sampleUrl (objectFile hashA)]
          (slashJoin sampleUrl (objectFile hashA))).err = none) ∧
      (sampleEnv server429).DecodeObject emptyFS bodyA = some (GitObject.tag hashB) ∧
      GetReferencedHashes (GitObject.tag hashB) = [hashB]) ∧
    Reachable sampleRefs sampleServed [hashA] hashB ∧
    ((startState [hashA]).checkedObjs = [] ∧ (startState [hashA]).jt.Queue = [hashA]) ∧
    ((FindObjectsWorker (sampleEnv server429) sampleUrl sampleDir 3 (startState [hashA])).final.map
        (fun s => (s.jt.Queue, s.checkedObjs)) = some ([], [hashA]) ∧
      (FindObjectsWorker (sampleEnv server429) sampleUrl sampleDir 3 (startState [hashA])).final.map
        (fun s => decide (hashB ∈ s.checkedObjs)) = some false) ∧
    (FindObjectsWorker (sampleEnv serverOk) sampleUrl sampleDir 3 (startState [hashA])).final.map
        (fun s => decide (hashB ∈ s.checkedObjs)) = some true :=
  ⟨by decide,
    Reachable.ref hashA hashB (Reachable.seed hashA (by simp)) (by decide) (by decide),
    by decide, by decide, by decide⟩

/-! ## The statements at the sample inputs -/

theorem slashJoin_separates (server : List GoString → GoString → Response) (base : GoString) :
    UrlSeparatesObjects (sampleEnv server) base := by
  intro a b h
  simpa [sampleEnv, slashJoin] using h

/-- The sample environment presents the sample graph. -/
theorem sample_ServedGraph :
    ServedGraph (sampleEnv serverOk) sampleUrl sampleDir sampleRefs sampleServed [hashA]
      (startState [hashA]).fs where
  seed_ne := by
    intro h hh
    rw [List.mem_singleton] at hh
    subst hh; decide
  ref_ne := by
    intro h _ c hc
    unfold sampleRefs at hc
    split_ifs at hc
    · rw [List.mem_singleton] at hc
      subst hc; decide
    · simp at hc
  served_len := by
    intro h hs
    unfold sampleServed at hs
    split_ifs at hs with h1 h2
    · subst h1; decide
    · subst h2; decide
    · simp at hs
  serves := by
    intro h body hs trace
    unfold sampleServed at hs
    split_ifs at hs with h1 h2
    · subst h1
      simp only [Option.some.injEq] at hs
      subst hs
      exact ⟨rfl, rfl, rfl, rfl, rfl⟩
    · subst h2
      simp only [Option.some.injEq] at hs
      subst hs
      exact ⟨rfl, rfl, rfl, rfl, rfl⟩
  decodes := by
    intro h body hs fs hfs
    have hfs1 : fs (slashJoin sampleDir (objectFile h)) = some body := hfs
    unfold sampleServed at hs
    split_ifs at hs with h1 h2
    · subst h1
      simp only [Option.some.injEq] at hs
      subst hs
      simp only [referencedBy, sampleEnv, hfs1]
      rfl
    · subst h2
      simp only [Option.some.injEq] at hs
      subst hs
      simp only [referencedBy, sampleEnv, hfs1]
      rfl
  local_ok := fun _ _ _ => Or.inl rfl
  paths := slashJoin_separates serverOk sampleDir
  fs_ok := fun _ _ _ _ => ⟨rfl, rfl⟩

/-- C1 at a sample input: the jobs `hashA, hashA, hashB, hashA` behind the
rate-limited server. -/
theorem findObjWork_dedup_witness :
    UrlSeparatesObjects (sampleEnv server429) sampleUrl ∧ (startState []).trace = [] ∧
    ((processJobs (sampleEnv server429) sampleUrl sampleDir [hashA, hashA, hashB, hashA]
        (startState [])).trace.filter
      fun uri => decide (uri = (sampleEnv server429).Url sampleUrl (objectFile hashA))).length ≤ 1 :=
  ⟨slashJoin_separates server429 sampleUrl, rfl,
    findObjWork_dedup (sampleEnv server429) sampleUrl sampleDir
      (slashJoin_separates server429 sampleUrl) [hashA, hashA, hashB, hashA] (startState []) rfl
      hashA⟩

/-- The closure behind `serverOk`: the walk seeded with `hashA` comes to an
empty queue with the referenced `hashB` checked. -/
theorem FindObjectsWorker_closure_unrefused_sample :
    ∃ s, (FindObjectsWorker (sampleEnv serverOk) sampleUrl sampleDir 3 (startState [hashA])).state =
        some s ∧
      s.jt.Queue = [] ∧ Reachable sampleRefs sampleServed [hashA] hashB ∧
      hashB ∈ s.checkedObjs := by
  have hreach : Reachable sampleRefs sampleServed [hashA] hashB :=
    Reachable.ref hashA hashB (Reachable.seed hashA (by simp)) (by decide) (by decide)
  have hq : ((FindObjectsWorker (sampleEnv serverOk) sampleUrl sampleDir 3
      (startState [hashA])).state.map fun s => s.jt.Queue) = some [] := by decide
  cases hrun : (FindObjectsWorker (sampleEnv serverOk) sampleUrl sampleDir 3
      (startState [hashA])).state with
  | none => rw [hrun] at hq; simp at hq
  | some s =>
    rw [hrun] at hq
    simp only [Option.map_some', Option.some.injEq] at hq
    exact ⟨s, rfl, hq, hreach,
      FindObjectsWorker_closure_unrefused (sampleEnv serverOk) sampleUrl sampleDir sampleRefs
        sampleServed [hashA] (startState [hashA]) sample_ServedGraph rfl rfl 3 s hrun hq hashB
        hreach⟩

/-- The store of `fullState` holds the two sample objects and nothing else. -/
theorem fullState_holds (h : GoString) (hh : StoreHolds (sampleEnv serverOk) sampleDir fullState.fs h) :
    h = hashA ∨ h = hashB := by
  obtain ⟨hlen, hp⟩ := hh
  have hp1 : (fullState.fs (slashJoin sampleDir (objectFile h))).isSome = true := hp
  unfold fullState writeFile at hp1
  simp only at hp1
  split_ifs at hp1 with h1 h2
  · right
    have h3 : objectFile h = objectFile hashB := by simpa [slashJoin] using h1
    exact objectFile_inj h hashB hlen (by decide) h3
  · left
    have h3 : objectFile h = objectFile hashA := by simpa [slashJoin] using h2
    exact objectFile_inj h hashA hlen (by decide) h3
  · simp [emptyFS] at hp1

/-- C4 at sample inputs: the job `hashA` over a store that holds it, and the
walk over a store that holds both objects. -/
theorem findObjWork_already_fetched_witness :
    ((2 ≤ hashA.length ∧ hashA ∉ resumedState.checkedObjs ∧
      pathExists resumedState.fs ((sampleEnv serverOk).Url sampleDir (objectFile hashA)) = true ∧
      (sampleEnv serverOk).EncodedObject resumedState.fs hashA = some bodyA ∧
      (sampleEnv serverOk).DecodeObject resumedState.fs bodyA = some (GitObject.tag hashB)) ∧
    ∃ s1, findObjWork (sampleEnv serverOk) sampleUrl sampleDir hashA resumedState = some s1 ∧
      s1.trace = resumedState.trace ∧ s1.fs = resumedState.fs ∧
      s1.jt.Queue = resumedState.jt.Queue ++ GetReferencedHashes (GitObject.tag hashB)) ∧
    ((∀ h ∈ fullState.jt.Queue, StoreHolds (sampleEnv serverOk) sampleDir fullState.fs h) ∧
      (∀ h, StoreHolds (sampleEnv serverOk) sampleDir fullState.fs h →
        ∀ c ∈ referencedBy (sampleEnv serverOk) fullState.fs h,
          StoreHolds (sampleEnv serverOk) sampleDir fullState.fs c)) ∧
    (FindObjectsWorker (sampleEnv serverOk) sampleUrl sampleDir 3 fullState ≠ WalkResult.panicked ∧
      ∀ s1, (FindObjectsWorker (sampleEnv serverOk) sampleUrl sampleDir 3 fullState =
            WalkResult.finished s1 ∨
          FindObjectsWorker (sampleEnv serverOk) sampleUrl sampleDir 3 fullState =
            WalkResult.running s1) →
        s1.trace = fullState.trace ∧ s1.fs = fullState.fs) := by
  have hA : StoreHolds (sampleEnv serverOk) sampleDir fullState.fs hashA := ⟨by decide, by decide⟩
  have hB : StoreHolds (sampleEnv serverOk) sampleDir fullState.fs hashB := ⟨by decide, by decide⟩
  have hqueue : ∀ h ∈ fullState.jt.Queue, StoreHolds (sampleEnv serverOk) sampleDir fullState.fs h := by
    intro h hh
    have : h = hashA := by simpa [fullState] using hh
    rw [this]; exact hA
  have hrefs : ∀ h, StoreHolds (sampleEnv serverOk) sampleDir fullState.fs h →
      ∀ c ∈ referencedBy (sampleEnv serverOk) fullState.fs h,
        StoreHolds (sampleEnv serverOk) sampleDir fullState.fs c := by
    intro h hh c hc
    rcases fullState_holds h hh with rfl | rfl
    · have : referencedBy (sampleEnv serverOk) fullState.fs hashA = [hashB] := by decide
      rw [this, List.mem_singleton] at hc
      rw [hc]; exact hB
    · have : referencedBy (sampleEnv serverOk) fullState.fs hashB = [] := by decide
      rw [this] at hc
      simp at hc
  exact ⟨⟨⟨by decide, by decide, by decide, by decide, by decide⟩,
      (findObjWork_already_fetched (sampleEnv serverOk) sampleUrl sampleDir).1 hashA resumedState
        bodyA (GitObject.tag hashB) (by decide) (by decide) (by decide) (by decide) (by decide)⟩,
    ⟨hqueue, hrefs⟩,
    (findObjWork_already_fetched (sampleEnv serverOk) sampleUrl sampleDir).2 3 fullState
      hqueue hrefs⟩

/-- C6 as amended, at a sample input: `http://host/.git/HEAD/`. -/
theorem stripSuffixes_canonical_witness :
    SuffixFree "http://host".toList ∧
    stripSuffixes "http://host/.git/HEAD/".toList = "http://host".toList ∧
    SuffixFree (stripSuffixes "http://host/.git/HEAD/".toList) :=
  ⟨by unfold SuffixFree; decide,
    stripSuffixes_canonical "http://host".toList (by unfold SuffixFree; decide) true true true⟩

/-- C10 at a sample input: the first job `hashA` behind the rate-limited
server and behind the server that serves it. -/
theorem findObjWork_fetch_outcomes_witness :
    (2 ≤ hashA.length ∧ hashA ∉ (startState []).checkedObjs ∧
      pathExists (startState []).fs ((sampleEnv server429).Url sampleDir (objectFile hashA)) =
        false) ∧
    ∃ s1, findObjWork (sampleEnv server429) sampleUrl sampleDir hashA (startState []) = some s1 ∧
      s1.fs = (startState []).fs ∧ s1.jt.Queue = [hashA] := by
  refine ⟨⟨by decide, by decide, by decide⟩, ?_⟩
  obtain ⟨s1, h1, _, _, _, h5⟩ :=
    findObjWork_fetch_outcomes (sampleEnv server429) sampleUrl sampleDir hashA (startState [])
      (by decide) (by decide) (by decide)
  have hrej : ¬ Accepted (sampleEnv server429)
      ((sampleEnv server429).Get (startState []).trace
        ((sampleEnv server429).Url sampleUrl (objectFile hashA))) := by
    unfold Accepted
    decide
  obtain ⟨hfs, hq⟩ := h5 hrej
  refine ⟨s1, h1, hfs, ?_⟩
  rw [hq]
  decide

end Goop
